import Mathlib

/-!
Verification of the field-mapping core of an AI-supported data-mapping system.

The development shallowly embeds the TypeScript mapping service
(`AIFieldMappingService`: `mapFields`, `parseAIResponse`, `fallbackMapping`,
`findBestFallbackMatch`, `calculateSimilarity`, `levenshteinDistance`, and the
Gemini response-repair pipeline in `performAIMapping`) together with the
transposed-spreadsheet normalizer (`parseTransposedExcelTemplate` in
`FileUpload.tsx`).  JavaScript strings are embedded as Lean `String`,
JavaScript numbers occurring in confidences as `Rat`, dynamically typed /
possibly-absent JSON fields as `Option`, and thrown exceptions as `Except`.
-/

/-! ## String utilities

JavaScript string primitives (`includes`, `startsWith`, `endsWith`, `trim`,
`toLowerCase`, `indexOf`, `lastIndexOf`) embedded over `List Char`. -/

/-- JavaScript `haystack.includes(needle)` on character lists: some tail of
`l` has `pat` as a prefix. -/
def strContainsList (l pat : List Char) : Bool :=
  l.tails.any (fun t => pat.isPrefixOf t)

/-- JavaScript `s.includes(pat)`. -/
def strContains (s pat : String) : Bool :=
  strContainsList s.toList pat.toList

/-- JavaScript `s.startsWith(pat)`. -/
def strStartsWith (s pat : String) : Bool :=
  pat.toList.isPrefixOf s.toList

/-- JavaScript `s.endsWith(pat)`. -/
def strEndsWith (s pat : String) : Bool :=
  pat.toList.reverse.isPrefixOf s.toList.reverse

/-- JavaScript `s.toLowerCase()` (the repository's data is ASCII). -/
def strToLower (s : String) : String :=
  ⟨s.toList.map Char.toLower⟩

/-- Strip leading whitespace from a character list. -/
def trimLeftList (l : List Char) : List Char :=
  l.dropWhile Char.isWhitespace

/-- Strip whitespace from both ends of a character list. -/
def strTrimList (l : List Char) : List Char :=
  ((trimLeftList l).reverse.dropWhile Char.isWhitespace).reverse

/-- JavaScript `s.trim()`. -/
def strTrim (s : String) : String :=
  ⟨strTrimList s.toList⟩

/-- Index of the first occurrence of `pat` in `l` (JavaScript `indexOf`),
counting from `i`. -/
def firstIdxGo (pat : List Char) : List Char → Nat → Option Nat
  | [], i => if pat.isEmpty then some i else none
  | c :: rest, i =>
    if pat.isPrefixOf (c :: rest) then some i else firstIdxGo pat rest (i + 1)

/-- Index of the first occurrence of `pat` in `l`, if any. -/
def firstIdx (l pat : List Char) : Option Nat :=
  firstIdxGo pat l 0

/-- Index of the first occurrence of character `c` (JavaScript `indexOf`). -/
def firstIdxCh (l : List Char) (c : Char) : Option Nat :=
  l.findIdx? (fun d => d = c)

/-- Index of the last occurrence of character `c` (JavaScript `lastIndexOf`). -/
def lastIdxCh (l : List Char) (c : Char) : Option Nat :=
  match l.reverse.findIdx? (fun d => d = c) with
  | some j => some (l.length - 1 - j)
  | none => none

/-! ## Levenshtein distance

Embedding of `levenshteinDistance(str1, str2)`.  The source fills a
`(str2.length+1) x (str1.length+1)` matrix with `matrix[0][i] = i`,
`matrix[j][0] = j` and
`matrix[j][i] = min(matrix[j][i-1]+1, matrix[j-1][i]+1, matrix[j-1][i-1]+ind)`
where `ind` is 0 iff `str1[i-1] = str2[j-1]`.  We embed the same dynamic
program row by row: a row is `(firstCell, cells)` where `cells` pairs each
character of `str1` with the matrix cell in its column. -/

/-- Row 0 of the matrix: cell `i` holds `i` (paired with `str1`'s chars),
starting at column offset `k`. -/
def levInit : List Char → Nat → List (Char × Nat)
  | [], _ => []
  | c :: cs, k => (c, k + 1) :: levInit cs (k + 1)

/-- Fill one matrix row for character `y` of `str2`: `diag` is the previous
row's cell one column left, the `above` components are the previous row's
cells, `left` is the freshly computed cell one column left. -/
def levGo (y : Char) : Nat → List (Char × Nat) → Nat → List (Char × Nat)
  | _, [], _ => []
  | diag, (x, above) :: rest, left =>
    let cell := min (min (left + 1) (above + 1)) (diag + (if x = y then 0 else 1))
    (x, cell) :: levGo y above rest cell

/-- Row `j` of the matrix from row `j-1`: its first cell is `j`
(`matrix[j][0] = j`). -/
def levNextRow (y : Char) (j : Nat) (row : Nat × List (Char × Nat)) :
    Nat × List (Char × Nat) :=
  (j, levGo y row.1 row.2 j)

/-- Iterate the row update over the characters of `str2`. -/
def levRows : Nat × List (Char × Nat) → List Char → Nat → Nat × List (Char × Nat)
  | row, [], _ => row
  | row, y :: ys, j => levRows (levNextRow y j row) ys (j + 1)

/-- The last cell of a row: `matrix[j][str1.length]`. -/
def lastCell (row : Nat × List (Char × Nat)) : Nat :=
  (row.2.map Prod.snd).getLastD row.1

/-- Embeds `levenshteinDistance(str1, str2)`: the bottom-right matrix cell. -/
def levenshteinDistance (str1 str2 : String) : Nat :=
  lastCell (levRows (0, levInit str1.toList 0) str2.toList 1)

/-- The value bound invariant on a row suffix starting after column `p` of
row `j`: the cell in column `p + k + 1` is at most `max (p + k + 1) j`. -/
def rowBound (j : Nat) : Nat → List (Char × Nat) → Prop
  | _, [] => True
  | p, (_, v) :: rest => v ≤ max (p + 1) j ∧ rowBound j (p + 1) rest

theorem max_succ_succ_eq (a b : Nat) : max (a + 1) (b + 1) = max a b + 1 := by
  rcases Nat.le_total a b with h | h
  · rw [Nat.max_eq_right h, Nat.max_eq_right (Nat.add_le_add_right h 1)]
  · rw [Nat.max_eq_left h, Nat.max_eq_left (Nat.add_le_add_right h 1)]

theorem rowBound_levInit : ∀ (l : List Char) (p : Nat), rowBound 0 p (levInit l p) := by
  intro l
  induction l with
  | nil => intro p; trivial
  | cons c cs ih =>
    intro p
    exact ⟨Nat.le_max_left _ _, ih (p + 1)⟩

theorem rowBound_levGo (y : Char) (j' : Nat) :
    ∀ (l : List (Char × Nat)) (diag left p : Nat),
      diag ≤ max p j' → rowBound j' p l →
      rowBound (j' + 1) p (levGo y diag l left) := by
  intro l
  induction l with
  | nil => intro diag left p _ _; trivial
  | cons hd rest ih =>
    intro diag left p hdiag hrow
    obtain ⟨x, above⟩ := hd
    obtain ⟨habove, hrest⟩ := hrow
    refine ⟨?_, ih above _ (p + 1) habove hrest⟩
    have hc : diag + (if x = y then 0 else 1) ≤ diag + 1 := by
      split <;> omega
    calc min (min (left + 1) (above + 1)) (diag + (if x = y then 0 else 1))
        ≤ diag + (if x = y then 0 else 1) := Nat.min_le_right _ _
      _ ≤ diag + 1 := hc
      _ ≤ max p j' + 1 := Nat.add_le_add_right hdiag 1
      _ = max (p + 1) (j' + 1) := (max_succ_succ_eq p j').symm

theorem rowBound_getLastD :
    ∀ (l : List (Char × Nat)) (j p d : Nat),
      rowBound j p l → d ≤ max p j →
      (l.map Prod.snd).getLastD d ≤ max (p + l.length) j := by
  intro l
  induction l with
  | nil => intro j p d _ hle; simpa using hle
  | cons hd rest ih =>
    intro j p d hrow hle
    obtain ⟨x, v⟩ := hd
    obtain ⟨hv, hrest⟩ := hrow
    have h2 := ih j (p + 1) v hrest hv
    have e : p + 1 + rest.length = p + (rest.length + 1) := by omega
    simp only [List.map_cons, List.getLastD_cons, List.length_cons]
    rw [← e]
    exact h2

theorem levGo_length (y : Char) :
    ∀ (l : List (Char × Nat)) (diag left : Nat), (levGo y diag l left).length = l.length := by
  intro l
  induction l with
  | nil => intro diag left; rfl
  | cons hd rest ih =>
    intro diag left
    obtain ⟨x, above⟩ := hd
    simp [levGo, ih]

theorem levInit_length : ∀ (l : List Char) (k : Nat), (levInit l k).length = l.length := by
  intro l
  induction l with
  | nil => intro k; rfl
  | cons c cs ih => intro k; simp [levInit, ih]

theorem levRows_spec :
    ∀ (ys : List Char) (row : Nat × List (Char × Nat)) (j0 : Nat),
      row.1 = j0 → rowBound j0 0 row.2 →
      (levRows row ys (j0 + 1)).1 = j0 + ys.length ∧
      rowBound (j0 + ys.length) 0 (levRows row ys (j0 + 1)).2 ∧
      (levRows row ys (j0 + 1)).2.length = row.2.length := by
  intro ys
  induction ys with
  | nil => intro row j0 h1 h2; exact ⟨by simpa [levRows] using h1, by simpa [levRows] using h2, rfl⟩
  | cons y ys ih =>
    intro row j0 h1 h2
    have hnext1 : (levNextRow y (j0 + 1) row).1 = j0 + 1 := rfl
    have hnext2 : rowBound (j0 + 1) 0 (levNextRow y (j0 + 1) row).2 := by
      have hdiag : row.1 ≤ max 0 j0 := by rw [h1]; exact Nat.le_max_right _ _
      exact rowBound_levGo y j0 row.2 row.1 (j0 + 1) 0 hdiag h2
    have := ih (levNextRow y (j0 + 1) row) (j0 + 1) hnext1 hnext2
    obtain ⟨ha, hb, hc⟩ := this
    refine ⟨?_, ?_, ?_⟩
    · simpa [levRows, Nat.add_comm, Nat.add_assoc, Nat.add_left_comm] using ha
    · simpa [levRows, Nat.add_comm, Nat.add_assoc, Nat.add_left_comm] using hb
    · have hlen : (levNextRow y (j0 + 1) row).2.length = row.2.length := levGo_length y row.2 row.1 (j0 + 1)
      simpa [levRows, hlen] using hc

/-- The Levenshtein matrix's bottom-right cell is bounded by the longer
string's length. -/
theorem levenshteinDistance_le (s1 s2 : String) :
    levenshteinDistance s1 s2 ≤ max s1.toList.length s2.toList.length := by
  have h0 : (0, levInit s1.toList 0).1 = 0 := rfl
  have hrb : rowBound 0 0 (0, levInit s1.toList 0).2 := rowBound_levInit s1.toList 0
  obtain ⟨ha, hb, hc⟩ := levRows_spec s2.toList (0, levInit s1.toList 0) 0 h0 hrb
  have hlen : (levRows (0, levInit s1.toList 0) s2.toList 1).2.length = s1.toList.length := by
    rw [hc]; exact levInit_length s1.toList 0
  have hd : (levRows (0, levInit s1.toList 0) s2.toList 1).1 ≤
      max 0 (0 + s2.toList.length) := by
    rw [ha]; exact Nat.le_max_right _ _
  have := rowBound_getLastD (levRows (0, levInit s1.toList 0) s2.toList 1).2
    (0 + s2.toList.length) 0 (levRows (0, levInit s1.toList 0) s2.toList 1).1 hb hd
  rw [hlen] at this
  simpa [levenshteinDistance, lastCell] using this

/-! ## String similarity

Embedding of `calculateSimilarity(str1, str2)`: picks the longer string,
returns 1 for two empty strings, else `(longer.length - distance) / longer.length`
as a rational. -/

/-- Embeds `calculateSimilarity(str1, str2)`. -/
def calculateSimilarity (str1 str2 : String) : Rat :=
  let longer := if str1.length > str2.length then str1 else str2
  let shorter := if str1.length > str2.length then str2 else str1
  if longer.length = 0 then 1
  else ((longer.length : Rat) - (levenshteinDistance longer shorter : Rat)) / (longer.length : Rat)

theorem toList_length_eq (s : String) : s.toList.length = s.length := rfl

theorem levenshteinDistance_le_left (s1 s2 : String) (h : s2.length ≤ s1.length) :
    levenshteinDistance s1 s2 ≤ s1.length := by
  have := levenshteinDistance_le s1 s2
  rw [toList_length_eq, toList_length_eq] at this
  omega

theorem calculateSimilarity_nonneg (str1 str2 : String) :
    0 ≤ calculateSimilarity str1 str2 := by
  unfold calculateSimilarity
  by_cases h : str1.length > str2.length <;> simp only [h, if_true, if_false, gt_iff_lt] <;>
    split
  · exact zero_le_one
  · rename_i hL
    have hd : levenshteinDistance str1 str2 ≤ str1.length :=
      levenshteinDistance_le_left str1 str2 (Nat.le_of_lt h)
    apply div_nonneg
    · have : (levenshteinDistance str1 str2 : Rat) ≤ (str1.length : Rat) := by
        exact_mod_cast hd
      linarith
    · positivity
  · exact zero_le_one
  · rename_i hL
    have hle : str1.length ≤ str2.length := Nat.le_of_not_lt h
    have hd : levenshteinDistance str2 str1 ≤ str2.length :=
      levenshteinDistance_le_left str2 str1 hle
    apply div_nonneg
    · have : (levenshteinDistance str2 str1 : Rat) ≤ (str2.length : Rat) := by
        exact_mod_cast hd
      linarith
    · positivity

theorem calculateSimilarity_le_one (str1 str2 : String) :
    calculateSimilarity str1 str2 ≤ 1 := by
  unfold calculateSimilarity
  by_cases h : str1.length > str2.length <;> simp only [h, if_true, if_false, gt_iff_lt] <;>
    split
  · exact le_refl 1
  · rename_i hL
    have hpos : (0 : Rat) < (str1.length : Rat) := by
      have : 0 < str1.length := Nat.pos_of_ne_zero hL
      exact_mod_cast this
    rw [div_le_one hpos]
    have : (0 : Rat) ≤ (levenshteinDistance str1 str2 : Rat) := by positivity
    linarith
  · exact le_refl 1
  · rename_i hL
    have hpos : (0 : Rat) < (str2.length : Rat) := by
      have : 0 < str2.length := Nat.pos_of_ne_zero hL
      exact_mod_cast this
    rw [div_le_one hpos]
    have : (0 : Rat) ≤ (levenshteinDistance str2 str1 : Rat) := by positivity
    linarith

/-! ## Data model

Embeddings of the TypeScript interfaces.  `TargetField` rows carry further
database columns (id, timestamps) that the mapping logic never reads; only
`field_name` is embedded.  Dynamically typed JSON coming back from the
inference call is embedded as `RawMapping` with every field optional. -/

/-- A catalog entry (`TargetField` of `supabase.ts`); only `field_name` is
consumed by the mapping service. -/
structure TargetField where
  field_name : String
deriving Repr, DecidableEq

/-- Embeds `FieldMappingResult`.  The two classification flags are optional
in TypeScript but set by every constructor site, so they are plain `Bool`. -/
structure FieldMappingResult where
  sourceField : String
  targetField : String
  confidence : Rat
  reason : String
  isRequired : Bool
  isOptional : Bool
deriving Repr, DecidableEq

/-- Embeds `FieldMappingRequest`.  A null `targetFields` is normalized to the
empty list by `mapFields` (lines 66-69), so it is embedded as a plain list. -/
structure FieldMappingRequest where
  sourceFields : List String
  targetFields : List TargetField
  fieldDescriptions : Option (List (String × String)) := none
deriving Repr

/-- One entry of the `mappings` array of the parsed inference response: a
dynamically typed JSON object, every field possibly absent. -/
structure RawMapping where
  sourceField : Option String := none
  targetField : Option String := none
  confidence : Option Rat := none
  reason : Option String := none
  isRequired : Option Bool := none
  isOptional : Option Bool := none
deriving Repr, DecidableEq

/-- JavaScript `v || dflt` for an optional string (`undefined` and the empty
string are falsy). -/
def orElseStr (v : Option String) (dflt : String) : String :=
  match v with
  | some s => if s = "" then dflt else s
  | none => dflt

/-- Embeds `targetFields?.map(tf => tf?.field_name || 'Unknown') || []`
(line 423): the catalog names with empty names replaced by `"Unknown"`. -/
def targetFieldNamesOf (tfs : List TargetField) : List String :=
  tfs.map (fun tf => if tf.field_name = "" then "Unknown" else tf.field_name)

/-! ## Similarity fallback engine

Embeddings of `findBestFallbackMatch` and `fallbackMapping`. -/

/-- The fixed rule table of `findBestFallbackMatch` (lines 611-625), in
source order. -/
def mappingRules : List (String × List String) := [
  ("Portal Name", ["name", "title", "product name", "productname", "portal name", "item name"]),
  ("Producer Name", ["brand", "manufacturer", "producer", "hersteller", "make"]),
  ("Product Description", ["description", "desc", "details", "beschreibung", "initial data", "important"]),
  ("Article Number/SKU", ["sku", "article", "item number", "artikel", "artikelnummer"]),
  ("GTIN", ["gtin", "ean", "barcode", "upc"]),
  ("Initial Suggested Retail Price (SRP) EU", ["price", "cost", "preis", "msrp", "uvp", "srp", "usd"]),
  ("Custom Category", ["category", "type", "kategorie", "produkttyp", "product category"]),
  ("Color", ["color", "colour", "farbe"]),
  ("Country of Origin", ["country", "origin", "herkunft", "land"]),
  ("Licence Name (Theme)", ["license", "licence", "theme", "franchise"]),
  ("CN - Item", ["cn", "item", "classification"]),
  ("Release Name", ["release", "edition", "street date"]),
  ("Language Version", ["language", "version", "lang"])]

/-- The rule loop (lines 628-633): for each rule in table order, if its
target name exists in the catalog and some pattern occurs in the lowercased
source name, return that catalog entry. -/
def ruleMatch (sourceLower : String) (targetFields : List TargetField) :
    List (String × List String) → Option TargetField
  | [] => none
  | (tn, pats) :: rest =>
    match targetFields.find? (fun tf => tf.field_name == tn) with
    | some tf =>
      if pats.any (fun p => strContains sourceLower p) then some tf
      else ruleMatch sourceLower targetFields rest
    | none => ruleMatch sourceLower targetFields rest

/-- The similarity loop (lines 636-647): best match initialized to
`targetFields[0]`, replaced whenever a catalog entry with a truthy name
scores strictly higher. -/
def bestSimilarityFold (sourceLower : String) (targetFields : List TargetField)
    (init : TargetField) : TargetField :=
  (targetFields.foldl (fun (best : TargetField × Rat) tf =>
    if tf.field_name = "" then best
    else
      let sim := calculateSimilarity sourceLower (strToLower tf.field_name)
      if sim > best.2 then (tf, sim) else best) (init, 0)).1

/-- Embeds `findBestFallbackMatch(sourceField, targetFields)`.  An empty
source field is falsy in JavaScript, so the guard at line 603 returns null
for it. -/
def findBestFallbackMatch (sourceField : String) (targetFields : List TargetField) :
    Option TargetField :=
  if sourceField = "" then none
  else
    match targetFields with
    | [] => none
    | t0 :: _ =>
      let sourceLower := strToLower sourceField
      match ruleMatch sourceLower targetFields mappingRules with
      | some tf => some tf
      | none => some (bestSimilarityFold sourceLower targetFields t0)

/-- One iteration of the `fallbackMapping` loop body (lines 563-593). -/
def fallbackStep (targetFields : List TargetField)
    (acc : List FieldMappingResult) (sf : String) : List FieldMappingResult :=
  if sf = "" then acc
  else
    match findBestFallbackMatch sf targetFields with
    | some bm => acc ++ [{ sourceField := sf, targetField := bm.field_name,
                           confidence := max (1/5) (calculateSimilarity sf bm.field_name),
                           reason := "String similarity match (fallback - AI unavailable)",
                           isRequired := true, isOptional := false }]
    | none => acc ++ [{ sourceField := sf, targetField := sf, confidence := 1/2,
                        reason := "No target field match found - kept as optional (fallback)",
                        isRequired := false, isOptional := true }]

/-- Embeds `fallbackMapping(request)`.  Returns `[]` when `sourceFields` or
`targetFields` is empty (lines 551-559); empty-string source fields are falsy
and skipped by the guard at line 564. -/
def fallbackMapping (req : FieldMappingRequest) : List FieldMappingResult :=
  if req.sourceFields.isEmpty then []
  else if req.targetFields.isEmpty then []
  else req.sourceFields.foldl (fallbackStep req.targetFields) []

/-! ## AI response validation

Embedding of `parseAIResponse`, split into its four passes. -/

/-- The classification branch of `parseAIResponse` (lines 450-469): explicit
`isRequired: true` wins, then explicit `isOptional: true`, then membership of
the raw `targetField` among the catalog names, else optional.  Returns
`(isRequired, isOptional)`. -/
def classifyFlags (hasT : Bool) (names : List String) (m : RawMapping) : Bool × Bool :=
  if m.isRequired = some true then (true, false)
  else if m.isOptional = some true then (false, true)
  else if hasT && (match m.targetField with | some t => decide (t ∈ names) | none => false) then (true, false)
  else (false, true)

/-- The result record pushed for a valid raw mapping (lines 471-478). -/
def entryOfMapping (hasT : Bool) (names : List String) (m : RawMapping)
    (s : String) (c : Rat) : FieldMappingResult :=
  { sourceField := s
    targetField := orElseStr m.targetField s
    confidence := c
    reason := orElseStr m.reason "AI-suggested mapping"
    isRequired := (classifyFlags hasT names m).1
    isOptional := (classifyFlags hasT names m).2 }

/-- One step of the validation loop (lines 435-479): a raw mapping is kept
only when its `sourceField` is a truthy member of the requested list and its
`confidence` is a number within `[0,1]`. -/
def validStep (sourceFields : List String) (hasT : Bool) (names : List String)
    (acc : List FieldMappingResult) (m : RawMapping) : List FieldMappingResult :=
  match m.sourceField, m.confidence with
  | some s, some c =>
    if s = "" then acc
    else if s ∈ sourceFields ∧ 0 ≤ c ∧ c ≤ 1 then acc ++ [entryOfMapping hasT names m s c]
    else acc
  | _, _ => acc

/-- The validation pass over the raw `mappings` array. -/
def validateMappings (sourceFields : List String) (hasT : Bool) (names : List String)
    (ms : List RawMapping) : List FieldMappingResult :=
  ms.foldl (validStep sourceFields hasT names) []

/-- The record pushed by the completeness pass for a source field the AI left
unmapped (lines 487-494). -/
def unmappedOptionalEntry (sf : String) : FieldMappingResult :=
  { sourceField := sf, targetField := sf, confidence := 1/2,
    reason := "AI did not map this field - kept as optional",
    isRequired := false, isOptional := true }

/-- One iteration of the completeness pass (lines 482-496). -/
def ensureStep (acc : List FieldMappingResult) (sf : String) : List FieldMappingResult :=
  if acc.any (fun r => r.sourceField == sf) then acc
  else acc ++ [unmappedOptionalEntry sf]

/-- The completeness pass (lines 481-496): any requested source field with no
result yet is appended with its own name as target, confidence 0.5,
optional. -/
def ensureAllSourceFields (sourceFields : List String)
    (rs : List FieldMappingResult) : List FieldMappingResult :=
  sourceFields.foldl ensureStep rs

/-- The synthetic record pushed for a catalog name absent from all results
(lines 504-511). -/
def missingFieldEntry (name : String) : FieldMappingResult :=
  { sourceField := "[MISSING] " ++ name, targetField := name, confidence := 0,
    reason := "Required field not found in source data - needs manual input",
    isRequired := true, isOptional := false }

/-- One iteration of the catalog-coverage pass (lines 500-513). -/
def coverStep (acc : List FieldMappingResult) (tf : TargetField) : List FieldMappingResult :=
  if acc.any (fun r => r.targetField == tf.field_name) then acc
  else acc ++ [missingFieldEntry tf.field_name]

/-- The catalog-coverage pass (lines 498-514): any catalog name absent from
all current targets is appended as a synthetic missing entry. -/
def ensureTargetCoverage (targetFields : List TargetField)
    (rs : List FieldMappingResult) : List FieldMappingResult :=
  targetFields.foldl coverStep rs

/-- The final correction pass (lines 516-528): an entry whose target is a
catalog name but is not yet required is flipped to required, annotating the
reason. -/
def postProcessEntry (hasT : Bool) (names : List String)
    (r : FieldMappingResult) : FieldMappingResult :=
  if hasT ∧ r.targetField ∈ names then
    if r.isRequired then r
    else { r with isRequired := true, isOptional := false,
                  reason := r.reason ++ " (auto-corrected: exact target field match)" }
  else r

/-- The four passes of `parseAIResponse` composed in source order
(validation, source-field completeness, catalog coverage when a catalog
exists, final correction). -/
def aiPipeline (ms : List RawMapping) (sourceFields : List String)
    (targetFields : List TargetField) : List FieldMappingResult :=
  let names := targetFieldNamesOf targetFields
  let hasT := !targetFields.isEmpty
  let rs2 := ensureAllSourceFields sourceFields (validateMappings sourceFields hasT names ms)
  let rs3 := if hasT then ensureTargetCoverage targetFields rs2 else rs2
  rs3.map (postProcessEntry hasT names)

/-- Embeds `parseAIResponse(aiResult, sourceFields, targetFields)`.  The
argument is `aiResult.mappings`: `none` when missing or not an array, in
which case the source throws (line 429). -/
def parseAIResponse (aiMappings : Option (List RawMapping)) (sourceFields : List String)
    (targetFields : List TargetField) : Except String (List FieldMappingResult) :=
  match aiMappings with
  | none => Except.error "Invalid AI response: missing or invalid mappings array"
  | some ms => Except.ok (aiPipeline ms sourceFields targetFields)

/-- Embeds the control flow of `mapFields(request)` (lines 47-85).
`apiKeyOk` stands for the configured-credential check at line 71;
`aiResponse` abstracts the network call of `performAIMapping`: `none` means
the call or the response-repair parsing threw (any such exception is caught
at line 80 and answered by `fallbackMapping`), `some raw` means a response
parsed to a JSON object whose `mappings` member is `raw`. -/
def mapFields (apiKeyOk : Bool) (aiResponse : Option (Option (List RawMapping)))
    (request : Option FieldMappingRequest) : Except String (List FieldMappingResult) :=
  match request with
  | none => Except.error "Mapping request is null or undefined"
  | some req =>
    if req.sourceFields.isEmpty then Except.ok []
    else if !apiKeyOk then Except.error "Gemini API key is required for field mapping"
    else
      match aiResponse with
      | some raw =>
        match parseAIResponse raw req.sourceFields req.targetFields with
        | Except.ok rs => Except.ok rs
        | Except.error _ => Except.ok (fallbackMapping req)
      | none => Except.ok (fallbackMapping req)

/-! ## Generic fold lemmas

The four passes of the mapper are folds whose body only ever appends to the
accumulated result array; these lemmas capture that shape once. -/

theorem foldl_all_mem {α β : Type _} {P : β → Prop} :
    ∀ (l : List α) (f : List β → α → List β),
      (∀ acc x, x ∈ l → ∀ b ∈ f acc x, b ∈ acc ∨ P b) →
      ∀ acc, (∀ b ∈ acc, P b) → ∀ b ∈ l.foldl f acc, P b := by
  intro l
  induction l with
  | nil => intro f _ acc hacc b hb; exact hacc b (by simpa using hb)
  | cons x xs ih =>
    intro f hstep acc hacc b hb
    simp only [List.foldl_cons] at hb
    refine ih f (fun acc' x' hx' => hstep acc' x' (List.mem_cons_of_mem _ hx')) (f acc x) ?_ b hb
    intro b' hb'
    rcases hstep acc x (List.mem_cons_self _ _) b' hb' with h | h
    · exact hacc b' h
    · exact h

theorem mem_foldl_of_append {α β : Type _} :
    ∀ (l : List α) (f : List β → α → List β),
      (∀ acc x, ∃ t, f acc x = acc ++ t) →
      ∀ acc b, b ∈ acc → b ∈ l.foldl f acc := by
  intro l
  induction l with
  | nil => intro f _ acc b hb; simpa using hb
  | cons x xs ih =>
    intro f happ acc b hb
    simp only [List.foldl_cons]
    refine ih f happ (f acc x) b ?_
    obtain ⟨t, ht⟩ := happ acc x
    rw [ht]
    exact List.mem_append_left t hb

theorem foldl_preserve {α β : Type _} {P : β → Prop} :
    ∀ (l : List α) (f : β → α → β) (acc : β),
      P acc → (∀ acc' x, x ∈ l → P acc' → P (f acc' x)) → P (l.foldl f acc) := by
  intro l
  induction l with
  | nil => intro f acc hacc _; simpa using hacc
  | cons x xs ih =>
    intro f acc hacc hstep
    simp only [List.foldl_cons]
    exact ih f (f acc x) (hstep acc x (List.mem_cons_self _ _) hacc)
      (fun acc' x' hx' => hstep acc' x' (List.mem_cons_of_mem _ hx'))

/-! ## Result invariants

`resultWF` bundles the two per-entry invariants: the required/optional flags
are mutually exclusive and exhaustive, and the confidence lies in `[0,1]`. -/

/-- Well-formedness of one mapping result: exactly one classification flag is
set and the confidence is within `[0,1]`. -/
def resultWF (r : FieldMappingResult) : Prop :=
  ((r.isRequired = true ∧ r.isOptional = false) ∨
   (r.isRequired = false ∧ r.isOptional = true)) ∧
  0 ≤ r.confidence ∧ r.confidence ≤ 1

theorem classifyFlags_exclusive (hasT : Bool) (names : List String) (m : RawMapping) :
    classifyFlags hasT names m = (true, false) ∨ classifyFlags hasT names m = (false, true) := by
  unfold classifyFlags
  split
  · exact Or.inl rfl
  · split
    · exact Or.inr rfl
    · split
      · exact Or.inl rfl
      · exact Or.inr rfl

theorem entryOfMapping_wf (hasT : Bool) (names : List String) (m : RawMapping)
    (s : String) (c : Rat) (h0 : 0 ≤ c) (h1 : c ≤ 1) :
    resultWF (entryOfMapping hasT names m s c) := by
  refine ⟨?_, h0, h1⟩
  rcases classifyFlags_exclusive hasT names m with h | h <;>
    simp [entryOfMapping, h]

theorem unmappedOptionalEntry_wf (sf : String) : resultWF (unmappedOptionalEntry sf) := by
  refine ⟨Or.inr ⟨rfl, rfl⟩, ?_, ?_⟩ <;> norm_num [unmappedOptionalEntry]

theorem missingFieldEntry_wf (name : String) : resultWF (missingFieldEntry name) := by
  refine ⟨Or.inl ⟨rfl, rfl⟩, ?_, ?_⟩ <;> norm_num [missingFieldEntry]

theorem validateMappings_wf (sourceFields : List String) (hasT : Bool)
    (names : List String) (ms : List RawMapping) :
    ∀ r ∈ validateMappings sourceFields hasT names ms, resultWF r := by
  refine foldl_all_mem ms (validStep sourceFields hasT names) ?_ [] (by simp)
  intro acc m _ b hb
  unfold validStep at hb
  cases hsf : m.sourceField with
  | none => rw [hsf] at hb; exact Or.inl hb
  | some s =>
    cases hcf : m.confidence with
    | none => rw [hsf, hcf] at hb; exact Or.inl hb
    | some c =>
      rw [hsf, hcf] at hb
      simp only at hb
      split at hb
      · exact Or.inl hb
      · split at hb
        · rename_i hcond
          rcases List.mem_append.mp hb with h | h
          · exact Or.inl h
          · have hbe : b = entryOfMapping hasT names m s c := by simpa using h
            subst hbe
            exact Or.inr (entryOfMapping_wf hasT names m s c hcond.2.1 hcond.2.2)
        · exact Or.inl hb

theorem ensureAllSourceFields_wf (sourceFields : List String)
    (rs : List FieldMappingResult) (hrs : ∀ r ∈ rs, resultWF r) :
    ∀ r ∈ ensureAllSourceFields sourceFields rs, resultWF r := by
  refine foldl_all_mem sourceFields ensureStep ?_ rs hrs
  intro acc sf _ b hb
  unfold ensureStep at hb
  split at hb
  · exact Or.inl hb
  · rcases List.mem_append.mp hb with h | h
    · exact Or.inl h
    · have hbe : b = unmappedOptionalEntry sf := by simpa using h
      subst hbe
      exact Or.inr (unmappedOptionalEntry_wf sf)

theorem ensureTargetCoverage_wf (targetFields : List TargetField)
    (rs : List FieldMappingResult) (hrs : ∀ r ∈ rs, resultWF r) :
    ∀ r ∈ ensureTargetCoverage targetFields rs, resultWF r := by
  refine foldl_all_mem targetFields coverStep ?_ rs hrs
  intro acc tf _ b hb
  unfold coverStep at hb
  split at hb
  · exact Or.inl hb
  · rcases List.mem_append.mp hb with h | h
    · exact Or.inl h
    · have hbe : b = missingFieldEntry tf.field_name := by simpa using h
      subst hbe
      exact Or.inr (missingFieldEntry_wf tf.field_name)

theorem postProcessEntry_wf (hasT : Bool) (names : List String)
    (r : FieldMappingResult) (hr : resultWF r) :
    resultWF (postProcessEntry hasT names r) := by
  obtain ⟨hflags, h0, h1⟩ := hr
  unfold postProcessEntry
  split
  · split
    · exact ⟨hflags, h0, h1⟩
    · exact ⟨Or.inl ⟨rfl, rfl⟩, h0, h1⟩
  · exact ⟨hflags, h0, h1⟩

theorem parseAIResponse_ok_wf (raw : Option (List RawMapping))
    (sourceFields : List String) (targetFields : List TargetField)
    (out : List FieldMappingResult)
    (h : parseAIResponse raw sourceFields targetFields = Except.ok out) :
    ∀ r ∈ out, resultWF r := by
  match raw with
  | none => exact absurd h (by simp [parseAIResponse])
  | some ms =>
    have hout : out = aiPipeline ms sourceFields targetFields := by
      have := h.symm
      simpa [parseAIResponse] using this
    subst hout
    unfold aiPipeline
    intro r hr
    obtain ⟨r', hr', rfl⟩ := List.mem_map.mp hr
    refine postProcessEntry_wf _ _ r' ?_
    have h2 : ∀ x ∈ ensureAllSourceFields sourceFields
        (validateMappings sourceFields (!targetFields.isEmpty)
          (targetFieldNamesOf targetFields) ms), resultWF x :=
      ensureAllSourceFields_wf _ _ (validateMappings_wf _ _ _ _)
    by_cases hT : !targetFields.isEmpty
    · rw [if_pos hT] at hr'
      exact ensureTargetCoverage_wf _ _ h2 r' hr'
    · rw [if_neg hT] at hr'
      exact h2 r' hr'

theorem fallbackMapping_wf (req : FieldMappingRequest) :
    ∀ r ∈ fallbackMapping req, resultWF r := by
  unfold fallbackMapping
  split
  · simp
  · split
    · simp
    · refine foldl_all_mem req.sourceFields (fallbackStep req.targetFields) ?_ [] (by simp)
      intro acc sf _ b hb
      unfold fallbackStep at hb
      split at hb
      · exact Or.inl hb
      · split at hb
        · rename_i bm _
          rcases List.mem_append.mp hb with h | h
          · exact Or.inl h
          · have hbe := List.mem_singleton.mp h
            subst hbe
            refine Or.inr ⟨Or.inl ⟨rfl, rfl⟩, ?_, ?_⟩
            · exact le_trans (by norm_num) (le_max_left (1/5) _)
            · exact max_le (by norm_num) (calculateSimilarity_le_one _ _)
        · rcases List.mem_append.mp hb with h | h
          · exact Or.inl h
          · have hbe := List.mem_singleton.mp h
            subst hbe
            exact Or.inr ⟨Or.inr ⟨rfl, rfl⟩, by norm_num, by norm_num⟩

theorem mapFields_ok_wf (apiKeyOk : Bool) (ai : Option (Option (List RawMapping)))
    (request : Option FieldMappingRequest) (out : List FieldMappingResult)
    (h : mapFields apiKeyOk ai request = Except.ok out) :
    ∀ r ∈ out, resultWF r := by
  match request with
  | none => exact absurd h (by simp [mapFields])
  | some req =>
    by_cases hemp : req.sourceFields.isEmpty
    · have he : mapFields apiKeyOk ai (some req) = Except.ok [] := by
        simp [mapFields, hemp]
      rw [he] at h
      simp only [Except.ok.injEq] at h
      subst h
      simp
    · by_cases hkey : apiKeyOk
      · match ai with
        | none =>
          have he : mapFields apiKeyOk none (some req) = Except.ok (fallbackMapping req) := by
            simp [mapFields, hemp, hkey]
          rw [he] at h
          simp only [Except.ok.injEq] at h
          subst h
          exact fallbackMapping_wf req
        | some raw =>
          cases hp : parseAIResponse raw req.sourceFields req.targetFields with
          | ok rs =>
            have he : mapFields apiKeyOk (some raw) (some req) = Except.ok rs := by
              simp [mapFields, hemp, hkey, hp]
            rw [he] at h
            simp only [Except.ok.injEq] at h
            subst h
            exact parseAIResponse_ok_wf raw req.sourceFields req.targetFields rs hp
          | error e =>
            have he : mapFields apiKeyOk (some raw) (some req) =
                Except.ok (fallbackMapping req) := by
              simp [mapFields, hemp, hkey, hp]
            rw [he] at h
            simp only [Except.ok.injEq] at h
            subst h
            exact fallbackMapping_wf req
      · have he : mapFields apiKeyOk ai (some req) =
            Except.error "Gemini API key is required for field mapping" := by
          simp [mapFields, hemp, hkey]
        rw [he] at h
        exact absurd h (by simp)

/-! ## Membership lemmas for the mapper passes -/

theorem ensureStep_append (acc : List FieldMappingResult) (sf : String) :
    ∃ t, ensureStep acc sf = acc ++ t := by
  unfold ensureStep
  split
  · exact ⟨[], (List.append_nil acc).symm⟩
  · exact ⟨[unmappedOptionalEntry sf], rfl⟩

theorem coverStep_append (acc : List FieldMappingResult) (tf : TargetField) :
    ∃ t, coverStep acc tf = acc ++ t := by
  unfold coverStep
  split
  · exact ⟨[], (List.append_nil acc).symm⟩
  · exact ⟨[missingFieldEntry tf.field_name], rfl⟩

theorem ensureAllSourceFields_covers :
    ∀ (sfs : List String) (rs : List FieldMappingResult) (sf : String),
      sf ∈ sfs → ∃ r ∈ ensureAllSourceFields sfs rs, r.sourceField = sf := by
  intro sfs
  induction sfs with
  | nil => intro rs sf h; exact absurd h (List.not_mem_nil sf)
  | cons x xs ih =>
    intro rs sf hmem
    unfold ensureAllSourceFields
    simp only [List.foldl_cons]
    rcases List.mem_cons.mp hmem with rfl | hxs
    · have hex : ∃ r ∈ ensureStep rs sf, r.sourceField = sf := by
        unfold ensureStep
        cases hany : rs.any (fun r => r.sourceField == sf) with
        | true =>
          obtain ⟨r, hr, hbeq⟩ := List.any_eq_true.mp hany
          rw [if_pos rfl]
          exact ⟨r, hr, by simpa using hbeq⟩
        | false =>
          rw [if_neg (by simp)]
          exact ⟨unmappedOptionalEntry sf,
            List.mem_append_right rs (List.mem_singleton.mpr rfl), rfl⟩
      obtain ⟨r, hr, hrs⟩ := hex
      exact ⟨r, mem_foldl_of_append xs ensureStep ensureStep_append _ r hr, hrs⟩
    · exact ih (ensureStep rs x) sf hxs

theorem ensureAllSourceFields_appends :
    ∀ (sfs : List String) (rs : List FieldMappingResult) (sf : String),
      sf ∈ sfs → (∀ r ∈ rs, r.sourceField ≠ sf) →
      unmappedOptionalEntry sf ∈ ensureAllSourceFields sfs rs := by
  intro sfs
  induction sfs with
  | nil => intro rs sf h _; exact absurd h (List.not_mem_nil sf)
  | cons x xs ih =>
    intro rs sf hmem hnone
    unfold ensureAllSourceFields
    simp only [List.foldl_cons]
    by_cases hx : x = sf
    · subst hx
      have hany : rs.any (fun r => r.sourceField == x) = false := by
        rw [List.any_eq_false]
        intro r hr
        simpa using hnone r hr
      have hstep : ensureStep rs x = rs ++ [unmappedOptionalEntry x] := by
        unfold ensureStep
        rw [hany]
        simp
      have hin : unmappedOptionalEntry x ∈ ensureStep rs x := by
        rw [hstep]
        exact List.mem_append_right rs (List.mem_singleton.mpr rfl)
      exact mem_foldl_of_append xs ensureStep ensureStep_append _ _ hin
    · rcases List.mem_cons.mp hmem with rfl | hxs
      · exact absurd rfl hx
      · refine ih (ensureStep rs x) sf hxs ?_
        intro r hr
        unfold ensureStep at hr
        split at hr
        · exact hnone r hr
        · rcases List.mem_append.mp hr with h | h
          · exact hnone r h
          · have : r = unmappedOptionalEntry x := List.mem_singleton.mp h
            subst this
            simpa [unmappedOptionalEntry] using hx

theorem ensureTargetCoverage_covers :
    ∀ (tfs : List TargetField) (rs : List FieldMappingResult) (tf : TargetField),
      tf ∈ tfs → ∃ r ∈ ensureTargetCoverage tfs rs, r.targetField = tf.field_name := by
  intro tfs
  induction tfs with
  | nil => intro rs tf h; exact absurd h (List.not_mem_nil tf)
  | cons x xs ih =>
    intro rs tf hmem
    unfold ensureTargetCoverage
    simp only [List.foldl_cons]
    rcases List.mem_cons.mp hmem with rfl | hxs
    · have hex : ∃ r ∈ coverStep rs tf, r.targetField = tf.field_name := by
        unfold coverStep
        cases hany : rs.any (fun r => r.targetField == tf.field_name) with
        | true =>
          obtain ⟨r, hr, hbeq⟩ := List.any_eq_true.mp hany
          rw [if_pos rfl]
          exact ⟨r, hr, by simpa using hbeq⟩
        | false =>
          rw [if_neg (by simp)]
          exact ⟨missingFieldEntry tf.field_name,
            List.mem_append_right rs (List.mem_singleton.mpr rfl), rfl⟩
      obtain ⟨r, hr, hrs⟩ := hex
      exact ⟨r, mem_foldl_of_append xs coverStep coverStep_append _ r hr, hrs⟩
    · exact ih (coverStep rs x) tf hxs

theorem ensureTargetCoverage_appends :
    ∀ (tfs : List TargetField) (rs : List FieldMappingResult) (tf : TargetField),
      tf ∈ tfs → (∀ r ∈ rs, r.targetField ≠ tf.field_name) →
      missingFieldEntry tf.field_name ∈ ensureTargetCoverage tfs rs := by
  intro tfs
  induction tfs with
  | nil => intro rs tf h _; exact absurd h (List.not_mem_nil tf)
  | cons x xs ih =>
    intro rs tf hmem hnone
    unfold ensureTargetCoverage
    simp only [List.foldl_cons]
    by_cases hx : x.field_name = tf.field_name
    · have hany : rs.any (fun r => r.targetField == x.field_name) = false := by
        rw [List.any_eq_false]
        intro r hr
        rw [hx]
        simpa using hnone r hr
      have hstep : coverStep rs x = rs ++ [missingFieldEntry x.field_name] := by
        unfold coverStep
        rw [hany]
        simp
      have hin : missingFieldEntry tf.field_name ∈ coverStep rs x := by
        rw [hstep, hx]
        exact List.mem_append_right rs (List.mem_singleton.mpr rfl)
      exact mem_foldl_of_append xs coverStep coverStep_append _ _ hin
    · rcases List.mem_cons.mp hmem with rfl | hxs
      · exact absurd rfl hx
      · refine ih (coverStep rs x) tf hxs ?_
        intro r hr
        unfold coverStep at hr
        split at hr
        · exact hnone r hr
        · rcases List.mem_append.mp hr with h | h
          · exact hnone r h
          · have : r = missingFieldEntry x.field_name := List.mem_singleton.mp h
            subst this
            simpa [missingFieldEntry] using hx

theorem postProcessEntry_sourceField (hasT : Bool) (names : List String)
    (r : FieldMappingResult) : (postProcessEntry hasT names r).sourceField = r.sourceField := by
  unfold postProcessEntry
  split
  · split
    · rfl
    · rfl
  · rfl

theorem postProcessEntry_targetField (hasT : Bool) (names : List String)
    (r : FieldMappingResult) : (postProcessEntry hasT names r).targetField = r.targetField := by
  unfold postProcessEntry
  split
  · split
    · rfl
    · rfl
  · rfl

theorem postProcessEntry_of_required (hasT : Bool) (names : List String)
    (r : FieldMappingResult) (hreq : r.isRequired = true) :
    postProcessEntry hasT names r = r := by
  simp [postProcessEntry, hreq]

theorem postProcessEntry_required (hasT : Bool) (names : List String)
    (r : FieldMappingResult)
    (hflags : (r.isRequired = true ∧ r.isOptional = false) ∨
              (r.isRequired = false ∧ r.isOptional = true))
    (hT : hasT = true) (hmem : r.targetField ∈ names) :
    (postProcessEntry hasT names r).isRequired = true ∧
    (postProcessEntry hasT names r).isOptional = false := by
  unfold postProcessEntry
  rw [if_pos ⟨by simp [hT], hmem⟩]
  cases hreq : r.isRequired with
  | true =>
    simp only [if_true]
    rcases hflags with ⟨h1, h2⟩ | ⟨h1, h2⟩
    · exact ⟨h1, h2⟩
    · rw [hreq] at h1; exact absurd h1 (by simp)
  | false =>
    simp

theorem postProcessEntry_flip (names : List String) (r : FieldMappingResult)
    (hmem : r.targetField ∈ names) (hreq : r.isRequired = false) :
    postProcessEntry true names r =
      { r with isRequired := true, isOptional := false,
               reason := r.reason ++ " (auto-corrected: exact target field match)" } := by
  unfold postProcessEntry
  rw [if_pos ⟨rfl, hmem⟩]
  rw [hreq]
  simp

/-! ## Fallback-match lemmas -/

theorem ruleMatch_mem :
    ∀ (rules : List (String × List String)) (sl : String) (tfs : List TargetField)
      (tf : TargetField), ruleMatch sl tfs rules = some tf → tf ∈ tfs := by
  intro rules
  induction rules with
  | nil => intro sl tfs tf h; exact absurd h (by simp [ruleMatch])
  | cons hd rest ih =>
    intro sl tfs tf h
    obtain ⟨tn, pats⟩ := hd
    unfold ruleMatch at h
    cases hfind : tfs.find? (fun tf => tf.field_name == tn) with
    | none => rw [hfind] at h; exact ih sl tfs tf h
    | some tf' =>
      rw [hfind] at h
      simp only at h
      split at h
      · have he : tf' = tf := by simpa using h
        exact he ▸ List.mem_of_find?_eq_some hfind
      · exact ih sl tfs tf h

theorem bestSimilarityFold_mem (sl : String) (tfs : List TargetField)
    (init : TargetField) (hinit : init ∈ tfs) : bestSimilarityFold sl tfs init ∈ tfs := by
  unfold bestSimilarityFold
  refine foldl_preserve (P := fun (best : TargetField × Rat) => best.1 ∈ tfs) tfs _
    (init, 0) hinit ?_
  intro acc x hx hacc
  dsimp only
  split
  · exact hacc
  · split
    · exact hx
    · exact hacc

theorem findBestFallbackMatch_mem (sf : String) (tfs : List TargetField)
    (hsf : sf ≠ "") (htfs : tfs ≠ []) :
    ∃ tf ∈ tfs, findBestFallbackMatch sf tfs = some tf := by
  unfold findBestFallbackMatch
  rw [if_neg hsf]
  match tfs, htfs with
  | t0 :: rest, _ =>
    cases hrm : ruleMatch (strToLower sf) (t0 :: rest) mappingRules with
    | some tf =>
      exact ⟨tf, ruleMatch_mem mappingRules _ _ tf hrm, by simp [hrm]⟩
    | none =>
      exact ⟨bestSimilarityFold (strToLower sf) (t0 :: rest) t0,
        bestSimilarityFold_mem _ _ t0 (List.mem_cons_self _ _), by simp [hrm]⟩

theorem fallbackMapping_required (req : FieldMappingRequest)
    (h : req.targetFields ≠ []) :
    ∀ r ∈ fallbackMapping req, r.isRequired = true ∧ r.isOptional = false := by
  unfold fallbackMapping
  split
  · simp
  · split
    · simp
    · refine foldl_all_mem req.sourceFields (fallbackStep req.targetFields) ?_ [] (by simp)
      intro acc sf _ b hb
      unfold fallbackStep at hb
      split at hb
      · exact Or.inl hb
      · rename_i hsf
        obtain ⟨tf, _, heq⟩ := findBestFallbackMatch_mem sf req.targetFields hsf h
        rw [heq] at hb
        rcases List.mem_append.mp hb with hmem | hmem
        · exact Or.inl hmem
        · have hb2 := List.mem_singleton.mp hmem
          subst hb2
          exact Or.inr ⟨rfl, rfl⟩

/-! ## Claim theorems -/

set_option maxRecDepth 10000

/-- C2: for every entry in the list returned by the mapper — both through the
AI path (`parseAIResponse` after its post-processing pass) and through the
similarity fallback path — exactly one of `isRequired` and `isOptional` is
true, never both and never neither. -/
theorem C2_flags_exclusive (apiKeyOk : Bool) (ai : Option (Option (List RawMapping)))
    (request : Option FieldMappingRequest) (out : List FieldMappingResult)
    (h : mapFields apiKeyOk ai request = Except.ok out) :
    ∀ r ∈ out, (r.isRequired = true ∧ r.isOptional = false) ∨
               (r.isRequired = false ∧ r.isOptional = true) :=
  fun r hr => (mapFields_ok_wf apiKeyOk ai request out h r hr).1

theorem C2_flags_exclusive_witness :
    (({ sourceField := "Farbe", targetField := "Color", confidence := 1/5,
        reason := "String similarity match (fallback - AI unavailable)",
        isRequired := true, isOptional := false } : FieldMappingResult).isRequired = true ∧
     ({ sourceField := "Farbe", targetField := "Color", confidence := 1/5,
        reason := "String similarity match (fallback - AI unavailable)",
        isRequired := true, isOptional := false } : FieldMappingResult).isOptional = false) ∨
    (({ sourceField := "Farbe", targetField := "Color", confidence := 1/5,
        reason := "String similarity match (fallback - AI unavailable)",
        isRequired := true, isOptional := false } : FieldMappingResult).isRequired = false ∧
     ({ sourceField := "Farbe", targetField := "Color", confidence := 1/5,
        reason := "String similarity match (fallback - AI unavailable)",
        isRequired := true, isOptional := false } : FieldMappingResult).isOptional = true) :=
  C2_flags_exclusive true none (some ⟨["Farbe"], [⟨"Color"⟩], none⟩) _
    (by with_unfolding_all rfl) _ (List.mem_singleton.mpr rfl)

/-- C4 counterexample: calling the mapper with an empty `sourceFields` list
does NOT fail with an error — it silently answers `Except.ok []`
(lines 61-64 log and `return []`), refuting the claim that an empty or null
source list fails fast with a distinct error. -/
theorem C4_counterexample :
    mapFields true none (some ⟨[], [⟨"Portal Name"⟩], none⟩) = Except.ok [] := rfl

/-- C4 amended: only a null mapping request fails fast with a distinct error;
an empty `sourceFields` list is answered with a silently empty result list
and no error. -/
theorem C4_amended :
    (∀ (apiKeyOk : Bool) (ai : Option (Option (List RawMapping))),
       mapFields apiKeyOk ai none = Except.error "Mapping request is null or undefined") ∧
    (∀ (apiKeyOk : Bool) (ai : Option (Option (List RawMapping)))
       (req : FieldMappingRequest), req.sourceFields = [] →
       mapFields apiKeyOk ai (some req) = Except.ok []) := by
  constructor
  · intro apiKeyOk ai
    rfl
  · intro apiKeyOk ai req hreq
    simp [mapFields, hreq]

theorem C4_amended_witness :
    mapFields true none (some ⟨[], [], none⟩) = Except.ok [] :=
  C4_amended.2 true none ⟨[], [], none⟩ rfl

/-- C5 counterexample: with an empty target catalog and the inference call
unavailable, the mapper returns `Except.ok []` — the empty list — for source
fields `["Color", "Mystery Field"]`, not one optional entry per source field:
`fallbackMapping` bails out with `[]` when `targetFields` is empty
(lines 556-559). -/
theorem C5_counterexample :
    mapFields true none (some ⟨["Color", "Mystery Field"], [], none⟩) = Except.ok [] := rfl

/-- C5 amended: when the target catalog is empty and the inference call is
unavailable (or its response unusable), the mapper still does not throw, but
it returns the empty result list, not one optional entry per source field:
the fallback returns `[]` for an empty catalog. -/
theorem C5_amended (req : FieldMappingRequest) (h : req.targetFields = []) :
    mapFields true none (some req) = Except.ok [] ∧
    mapFields true (some none) (some req) = Except.ok [] ∧
    fallbackMapping req = [] := by
  have hfb : fallbackMapping req = [] := by
    by_cases hemp : req.sourceFields.isEmpty <;> simp [fallbackMapping, hemp, h]
  refine ⟨?_, ?_, hfb⟩
  · by_cases hemp : req.sourceFields.isEmpty <;> simp [mapFields, hemp, hfb]
  · by_cases hemp : req.sourceFields.isEmpty <;>
      simp [mapFields, hemp, hfb, parseAIResponse]

theorem C5_amended_witness :
    mapFields true none (some ⟨["Color", "Mystery Field"], [], none⟩) = Except.ok [] ∧
    mapFields true (some none) (some ⟨["Color", "Mystery Field"], [], none⟩) = Except.ok [] ∧
    fallbackMapping ⟨["Color", "Mystery Field"], [], none⟩ = [] :=
  C5_amended ⟨["Color", "Mystery Field"], [], none⟩ rfl

/-- C6 counterexample: in the spec's scenario (source fields SKU, Price,
Widget; catalog Article Number/SKU and Initial Suggested Retail Price (SRP)
EU; inference unavailable), the entry for `Widget` is NOT kept optional with
`targetField = "Widget"`: the similarity loop starts from `targetFields[0]`
and always returns a catalog entry, so `Widget` is mapped to
`Article Number/SKU` with `isRequired = true`. -/
theorem C6_counterexample :
    (fallbackMapping ⟨["SKU", "Price", "Widget"],
      [⟨"Article Number/SKU"⟩, ⟨"Initial Suggested Retail Price (SRP) EU"⟩], none⟩).map
        (fun r => (r.sourceField, r.targetField, r.isOptional)) =
      [("SKU", "Article Number/SKU", false),
       ("Price", "Initial Suggested Retail Price (SRP) EU", false),
       ("Widget", "Article Number/SKU", false)] := by
  with_unfolding_all rfl

/-- C6 amended: in the spec's scenario, `SKU` maps to `Article Number/SKU`
via the rule table's "sku" pattern and `Price` to `Initial Suggested Retail
Price (SRP) EU` via the "price" pattern, both required with the floored
confidence 0.2; `Widget` matches no rule, but instead of staying optional it
is mapped — required, confidence floored at 0.2 — to `Article Number/SKU`,
the similarity-stage winner. -/
theorem C6_amended :
    findBestFallbackMatch "SKU"
      [⟨"Article Number/SKU"⟩, ⟨"Initial Suggested Retail Price (SRP) EU"⟩] =
        some ⟨"Article Number/SKU"⟩ ∧
    findBestFallbackMatch "Price"
      [⟨"Article Number/SKU"⟩, ⟨"Initial Suggested Retail Price (SRP) EU"⟩] =
        some ⟨"Initial Suggested Retail Price (SRP) EU"⟩ ∧
    ruleMatch (strToLower "Widget")
      [⟨"Article Number/SKU"⟩, ⟨"Initial Suggested Retail Price (SRP) EU"⟩]
      mappingRules = none ∧
    fallbackMapping ⟨["SKU", "Price", "Widget"],
      [⟨"Article Number/SKU"⟩, ⟨"Initial Suggested Retail Price (SRP) EU"⟩], none⟩ =
      [{ sourceField := "SKU", targetField := "Article Number/SKU", confidence := 1/5,
         reason := "String similarity match (fallback - AI unavailable)",
         isRequired := true, isOptional := false },
       { sourceField := "Price", targetField := "Initial Suggested Retail Price (SRP) EU",
         confidence := 1/5,
         reason := "String similarity match (fallback - AI unavailable)",
         isRequired := true, isOptional := false },
       { sourceField := "Widget", targetField := "Article Number/SKU", confidence := 1/5,
         reason := "String similarity match (fallback - AI unavailable)",
         isRequired := true, isOptional := false }] := by
  refine ⟨?_, ?_, ?_, ?_⟩ <;> with_unfolding_all rfl

/-- C9: every confidence in the mapper's output lies in `[0,1]`; inference
entries are discarded by the validation pass unless their confidence is a
number within `[0,1]`; and the normalized Levenshtein similarity itself
always lies in `[0,1]`. -/
theorem C9_confidence_range :
    (∀ (apiKeyOk : Bool) (ai : Option (Option (List RawMapping)))
       (request : Option FieldMappingRequest) (out : List FieldMappingResult),
       mapFields apiKeyOk ai request = Except.ok out →
       ∀ r ∈ out, 0 ≤ r.confidence ∧ r.confidence ≤ 1) ∧
    (∀ (sourceFields : List String) (hasT : Bool) (names : List String)
       (acc : List FieldMappingResult) (m : RawMapping),
       (∀ c, m.confidence = some c → ¬(0 ≤ c ∧ c ≤ 1)) →
       validStep sourceFields hasT names acc m = acc) ∧
    (∀ s1 s2 : String, 0 ≤ calculateSimilarity s1 s2 ∧ calculateSimilarity s1 s2 ≤ 1) := by
  refine ⟨?_, ?_, ?_⟩
  · intro apiKeyOk ai request out h r hr
    exact (mapFields_ok_wf apiKeyOk ai request out h r hr).2
  · intro sourceFields hasT names acc m hc
    unfold validStep
    cases hsf : m.sourceField with
    | none => rfl
    | some s =>
      cases hcf : m.confidence with
      | none => rfl
      | some c =>
        have hbad := hc c hcf
        by_cases hs : s = ""
        · simp [hs]
        · simp [hs, hbad]
  · intro s1 s2
    exact ⟨calculateSimilarity_nonneg s1 s2, calculateSimilarity_le_one s1 s2⟩

theorem C9_confidence_range_witness :
    0 ≤ ({ sourceField := "EAN", targetField := "GTIN", confidence := 1/4,
           reason := "String similarity match (fallback - AI unavailable)",
           isRequired := true, isOptional := false } : FieldMappingResult).confidence ∧
    ({ sourceField := "EAN", targetField := "GTIN", confidence := 1/4,
       reason := "String similarity match (fallback - AI unavailable)",
       isRequired := true, isOptional := false } : FieldMappingResult).confidence ≤ 1 :=
  C9_confidence_range.1 true none (some ⟨["EAN"], [⟨"GTIN"⟩], none⟩) _
    (by with_unfolding_all rfl) _ (List.mem_singleton.mpr rfl)

/-- C10 counterexample: `findBestFallbackMatch` DOES return null for a
non-empty catalog when the source field is the empty string (the guard
`!sourceField` at line 603 treats `""` as falsy), and the fallback loop emits
no entry at all for that string-typed source field (the `continue` at
line 564) — refuting "never returns null" and "emits an entry for every
string-typed source field" as stated. -/
theorem C10_counterexample :
    findBestFallbackMatch "" [⟨"Portal Name"⟩] = none ∧
    fallbackMapping ⟨[""], [⟨"Portal Name"⟩], none⟩ = [] := ⟨rfl, rfl⟩

/-- C10 amended: for every NON-empty source field string and non-empty
catalog, `findBestFallbackMatch` returns some catalog entry (initialized to
the first entry and only ever replaced by another), so every entry the
similarity fallback emits is required and never optional — the fallback's
"kept as optional" branch is unreachable under a non-empty catalog (the
empty-string source field is skipped before the match is attempted and
yields no entry). -/
theorem C10_amended :
    (∀ (sf : String) (tfs : List TargetField), sf ≠ "" → tfs ≠ [] →
       ∃ tf ∈ tfs, findBestFallbackMatch sf tfs = some tf) ∧
    (∀ (req : FieldMappingRequest), req.targetFields ≠ [] →
       ∀ r ∈ fallbackMapping req, r.isRequired = true ∧ r.isOptional = false) :=
  ⟨fun sf tfs hsf htfs => findBestFallbackMatch_mem sf tfs hsf htfs,
   fun req h r hr => fallbackMapping_required req h r hr⟩

theorem C10_amended_witness :
    ({ sourceField := "Color", targetField := "Color", confidence := 1,
       reason := "String similarity match (fallback - AI unavailable)",
       isRequired := true, isOptional := false } : FieldMappingResult).isRequired = true ∧
    ({ sourceField := "Color", targetField := "Color", confidence := 1,
       reason := "String similarity match (fallback - AI unavailable)",
       isRequired := true, isOptional := false } : FieldMappingResult).isOptional = false :=
  C10_amended.2 ⟨["Color"], [⟨"Color"⟩], none⟩ (by decide) _ (by
    have he : fallbackMapping ⟨["Color"], [⟨"Color"⟩], none⟩ =
        [{ sourceField := "Color", targetField := "Color", confidence := 1,
           reason := "String similarity match (fallback - AI unavailable)",
           isRequired := true, isOptional := false }] := by with_unfolding_all rfl
    rw [he]
    exact List.mem_singleton.mpr rfl)

/-! ## Pipeline shape lemmas -/

theorem isEmpty_false_of_ne_nil {α : Type _} (l : List α) (h : l ≠ []) :
    l.isEmpty = false := by
  cases l with
  | nil => exact absurd rfl h
  | cons a as => rfl

theorem mem_ensureAllSourceFields_of_mem (sfs : List String)
    (rs : List FieldMappingResult) (r : FieldMappingResult) (h : r ∈ rs) :
    r ∈ ensureAllSourceFields sfs rs :=
  mem_foldl_of_append sfs ensureStep ensureStep_append rs r h

theorem mem_ensureTargetCoverage_of_mem (tfs : List TargetField)
    (rs : List FieldMappingResult) (r : FieldMappingResult) (h : r ∈ rs) :
    r ∈ ensureTargetCoverage tfs rs :=
  mem_foldl_of_append tfs coverStep coverStep_append rs r h

theorem mem_targetFieldNamesOf (tfs : List TargetField) (tf : TargetField)
    (h : tf ∈ tfs) (hne : tf.field_name ≠ "") :
    tf.field_name ∈ targetFieldNamesOf tfs := by
  unfold targetFieldNamesOf
  exact List.mem_map.mpr ⟨tf, h, by rw [if_neg hne]⟩

theorem aiPipeline_eq (ms : List RawMapping) (sourceFields : List String)
    (targetFields : List TargetField) :
    aiPipeline ms sourceFields targetFields =
      ((if !targetFields.isEmpty then
          ensureTargetCoverage targetFields
            (ensureAllSourceFields sourceFields
              (validateMappings sourceFields (!targetFields.isEmpty)
                (targetFieldNamesOf targetFields) ms))
        else
          ensureAllSourceFields sourceFields
            (validateMappings sourceFields (!targetFields.isEmpty)
              (targetFieldNamesOf targetFields) ms)).map
        (postProcessEntry (!targetFields.isEmpty) (targetFieldNamesOf targetFields))) := rfl

theorem mapFields_ok_cases (apiKeyOk : Bool) (ai : Option (Option (List RawMapping)))
    (req : FieldMappingRequest) (out : List FieldMappingResult)
    (h : mapFields apiKeyOk ai (some req) = Except.ok out) :
    out = [] ∨
    (∃ ms, ai = some (some ms) ∧ out = aiPipeline ms req.sourceFields req.targetFields) ∨
    out = fallbackMapping req := by
  by_cases hemp : req.sourceFields.isEmpty
  · have he : mapFields apiKeyOk ai (some req) = Except.ok [] := by
      simp [mapFields, hemp]
    rw [he] at h
    simp only [Except.ok.injEq] at h
    exact Or.inl h.symm
  · by_cases hkey : apiKeyOk
    · match ai with
      | none =>
        have he : mapFields apiKeyOk none (some req) = Except.ok (fallbackMapping req) := by
          simp [mapFields, hemp, hkey]
        rw [he] at h
        simp only [Except.ok.injEq] at h
        exact Or.inr (Or.inr h.symm)
      | some none =>
        have he : mapFields apiKeyOk (some none) (some req) =
            Except.ok (fallbackMapping req) := by
          simp [mapFields, hemp, hkey, parseAIResponse]
        rw [he] at h
        simp only [Except.ok.injEq] at h
        exact Or.inr (Or.inr h.symm)
      | some (some ms) =>
        have he : mapFields apiKeyOk (some (some ms)) (some req) =
            Except.ok (aiPipeline ms req.sourceFields req.targetFields) := by
          simp [mapFields, hemp, hkey, parseAIResponse]
        rw [he] at h
        simp only [Except.ok.injEq] at h
        exact Or.inr (Or.inl ⟨ms, rfl, h.symm⟩)
    · have he : mapFields apiKeyOk ai (some req) =
          Except.error "Gemini API key is required for field mapping" := by
        simp [mapFields, hemp, hkey]
      rw [he] at h
      exact absurd h (by simp)

/-- C3 counterexample: an entry whose `targetField` exactly equals a catalog
field name can stay optional when that name is the empty string: the
membership test uses the names mapped through `|| 'Unknown'` (line 423), so
the empty catalog name `""` is replaced by `"Unknown"` and the correction
pass never fires for an entry whose target is `""`. -/
theorem C3_counterexample :
    mapFields true (some (some [])) (some ⟨[""], [⟨""⟩], none⟩) =
      Except.ok [{ sourceField := "", targetField := "", confidence := 1/2,
                   reason := "AI did not map this field - kept as optional",
                   isRequired := false, isOptional := true }] ∧
    (⟨""⟩ : TargetField).field_name = "" := by
  exact ⟨by with_unfolding_all rfl, rfl⟩

/-- C3 amended: for every entry of the mapper's final output whose
`targetField` exactly equals a field name of the supplied non-empty catalog,
provided the catalog's field names are non-empty strings (empty names are
replaced by "Unknown" in the membership test), `isRequired` is true and
`isOptional` is false regardless of the inference classification; and
whenever the post-processing pass flips such an entry it appends the
correction note " (auto-corrected: exact target field match)" to its
reason. -/
theorem C3_amended :
    (∀ (apiKeyOk : Bool) (ai : Option (Option (List RawMapping)))
       (req : FieldMappingRequest) (out : List FieldMappingResult),
       mapFields apiKeyOk ai (some req) = Except.ok out →
       req.targetFields ≠ [] →
       (∀ tf ∈ req.targetFields, tf.field_name ≠ "") →
       ∀ r ∈ out, (∃ tf ∈ req.targetFields, r.targetField = tf.field_name) →
         r.isRequired = true ∧ r.isOptional = false) ∧
    (∀ (names : List String) (r : FieldMappingResult),
       r.targetField ∈ names → r.isRequired = false →
       postProcessEntry true names r =
         { r with isRequired := true, isOptional := false,
                  reason := r.reason ++ " (auto-corrected: exact target field match)" }) := by
  constructor
  · intro apiKeyOk ai req out h htne hnames r hr hex
    rcases mapFields_ok_cases apiKeyOk ai req out h with rfl | ⟨ms, _, rfl⟩ | rfl
    · exact absurd hr (List.not_mem_nil r)
    · rw [aiPipeline_eq] at hr
      have hT : (!req.targetFields.isEmpty) = true := by
        rw [isEmpty_false_of_ne_nil req.targetFields htne]
        rfl
      rw [if_pos hT] at hr
      obtain ⟨r', hr', rfl⟩ := List.mem_map.mp hr
      obtain ⟨tf, htf, heq⟩ := hex
      rw [postProcessEntry_targetField] at heq
      have hmemnames : r'.targetField ∈ targetFieldNamesOf req.targetFields := by
        rw [heq]
        exact mem_targetFieldNamesOf req.targetFields tf htf (hnames tf htf)
      have hwf : resultWF r' :=
        ensureTargetCoverage_wf _ _
          (ensureAllSourceFields_wf _ _ (validateMappings_wf _ _ _ _)) r' hr'
      exact postProcessEntry_required _ _ r' hwf.1 hT hmemnames
    · exact fallbackMapping_required req htne r hr
  · intro names r hmem hreq
    exact postProcessEntry_flip names r hmem hreq

theorem C3_amended_witness :
    ({ sourceField := "SKU", targetField := "Article Number/SKU", confidence := 1/5,
       reason := "String similarity match (fallback - AI unavailable)",
       isRequired := true, isOptional := false } : FieldMappingResult).isRequired = true ∧
    ({ sourceField := "SKU", targetField := "Article Number/SKU", confidence := 1/5,
       reason := "String similarity match (fallback - AI unavailable)",
       isRequired := true, isOptional := false } : FieldMappingResult).isOptional = false :=
  C3_amended.1 true none ⟨["SKU"], [⟨"Article Number/SKU"⟩], none⟩ _
    (by with_unfolding_all rfl) (by decide) (by decide) _
    (List.mem_singleton.mpr rfl)
    ⟨⟨"Article Number/SKU"⟩, List.mem_singleton.mpr rfl, rfl⟩

/-- C1 counterexample: with source fields `["A"]`, no catalog, and an
inference response containing two valid mappings for the same source field
`"A"`, the mapper returns two entries and zero synthetic `[MISSING]` entries
— so the output does not have exactly `len(sourceFields) = 1` entries up to
synthetic additions. -/
theorem C1_counterexample :
    mapFields true (some (some [⟨some "A", some "X", some 1, none, none, none⟩,
        ⟨some "A", some "Y", some 1, none, none, none⟩])) (some ⟨["A"], [], none⟩) =
      Except.ok [{ sourceField := "A", targetField := "X", confidence := 1,
                   reason := "AI-suggested mapping", isRequired := false, isOptional := true },
                 { sourceField := "A", targetField := "Y", confidence := 1,
                   reason := "AI-suggested mapping", isRequired := false, isOptional := true }] ∧
    ([{ sourceField := "A", targetField := "X", confidence := 1,
        reason := "AI-suggested mapping", isRequired := false, isOptional := true },
      { sourceField := "A", targetField := "Y", confidence := 1,
        reason := "AI-suggested mapping", isRequired := false,
        isOptional := true }] : List FieldMappingResult).length = 2 ∧
    (["A"] : List String).length = 1 ∧
    ([{ sourceField := "A", targetField := "X", confidence := 1,
        reason := "AI-suggested mapping", isRequired := false, isOptional := true },
      { sourceField := "A", targetField := "Y", confidence := 1,
        reason := "AI-suggested mapping", isRequired := false,
        isOptional := true }] : List FieldMappingResult).countP
      (fun r => strStartsWith r.sourceField "[MISSING] ") = 0 := by
  refine ⟨?_, rfl, rfl, ?_⟩ <;> with_unfolding_all rfl

/-- C1 amended: for every non-empty `sourceFields` list answered through the
AI path, (1) every requested source field appears at least once among the
output's `sourceField`s; (2) every catalog field name appears among the
output's `targetField`s; (3) a requested source field absent from the
validated AI mappings yields the appended completeness entry (target equal to
the source name, confidence 0.5, optional) as transformed by the final
correction pass; (4) a catalog name absent from all results after the
completeness pass yields the synthetic `[MISSING]` entry (confidence 0,
required, not optional).  The output length is NOT `len(sourceFields)` up to
synthetic additions in general, because duplicate valid AI mappings are all
kept. -/
theorem C1_amended (ms : List RawMapping) (req : FieldMappingRequest)
    (out : List FieldMappingResult) (hne : req.sourceFields ≠ [])
    (h : mapFields true (some (some ms)) (some req) = Except.ok out) :
    (∀ sf ∈ req.sourceFields, ∃ r ∈ out, r.sourceField = sf) ∧
    (∀ tf ∈ req.targetFields, ∃ r ∈ out, r.targetField = tf.field_name) ∧
    (∀ sf ∈ req.sourceFields,
       (∀ r ∈ validateMappings req.sourceFields (!req.targetFields.isEmpty)
           (targetFieldNamesOf req.targetFields) ms, r.sourceField ≠ sf) →
       postProcessEntry (!req.targetFields.isEmpty) (targetFieldNamesOf req.targetFields)
         (unmappedOptionalEntry sf) ∈ out) ∧
    (∀ tf ∈ req.targetFields,
       (∀ r ∈ ensureAllSourceFields req.sourceFields
           (validateMappings req.sourceFields (!req.targetFields.isEmpty)
             (targetFieldNamesOf req.targetFields) ms), r.targetField ≠ tf.field_name) →
       missingFieldEntry tf.field_name ∈ out) := by
  have hemp := isEmpty_false_of_ne_nil req.sourceFields hne
  have he : mapFields true (some (some ms)) (some req) =
      Except.ok (aiPipeline ms req.sourceFields req.targetFields) := by
    simp [mapFields, hemp, parseAIResponse]
  rw [he] at h
  simp only [Except.ok.injEq] at h
  subst h
  refine ⟨?_, ?_, ?_, ?_⟩
  · intro sf hsf
    obtain ⟨r, hr2, hscr⟩ := ensureAllSourceFields_covers req.sourceFields
      (validateMappings req.sourceFields (!req.targetFields.isEmpty)
        (targetFieldNamesOf req.targetFields) ms) sf hsf
    rw [aiPipeline_eq]
    by_cases hT : (!req.targetFields.isEmpty) = true
    · rw [if_pos hT]
      exact ⟨postProcessEntry (!req.targetFields.isEmpty)
          (targetFieldNamesOf req.targetFields) r,
        List.mem_map_of_mem _ (mem_ensureTargetCoverage_of_mem _ _ r hr2),
        by rw [postProcessEntry_sourceField]; exact hscr⟩
    · rw [if_neg hT]
      exact ⟨postProcessEntry (!req.targetFields.isEmpty)
          (targetFieldNamesOf req.targetFields) r,
        List.mem_map_of_mem _ hr2,
        by rw [postProcessEntry_sourceField]; exact hscr⟩
  · intro tf htf
    have htne : req.targetFields ≠ [] := List.ne_nil_of_mem htf
    have hT : (!req.targetFields.isEmpty) = true := by
      rw [isEmpty_false_of_ne_nil req.targetFields htne]
      rfl
    rw [aiPipeline_eq, if_pos hT]
    obtain ⟨r, hr3, htfr⟩ := ensureTargetCoverage_covers req.targetFields
      (ensureAllSourceFields req.sourceFields
        (validateMappings req.sourceFields (!req.targetFields.isEmpty)
          (targetFieldNamesOf req.targetFields) ms)) tf htf
    exact ⟨postProcessEntry (!req.targetFields.isEmpty)
        (targetFieldNamesOf req.targetFields) r,
      List.mem_map_of_mem _ hr3,
      by rw [postProcessEntry_targetField]; exact htfr⟩
  · intro sf hsf hno
    have hmem := ensureAllSourceFields_appends req.sourceFields
      (validateMappings req.sourceFields (!req.targetFields.isEmpty)
        (targetFieldNamesOf req.targetFields) ms) sf hsf hno
    rw [aiPipeline_eq]
    by_cases hT : (!req.targetFields.isEmpty) = true
    · rw [if_pos hT]
      exact List.mem_map_of_mem _ (mem_ensureTargetCoverage_of_mem _ _ _ hmem)
    · rw [if_neg hT]
      exact List.mem_map_of_mem _ hmem
  · intro tf htf hno
    have htne : req.targetFields ≠ [] := List.ne_nil_of_mem htf
    have hT : (!req.targetFields.isEmpty) = true := by
      rw [isEmpty_false_of_ne_nil req.targetFields htne]
      rfl
    rw [aiPipeline_eq, if_pos hT]
    have hmem := ensureTargetCoverage_appends req.targetFields
      (ensureAllSourceFields req.sourceFields
        (validateMappings req.sourceFields (!req.targetFields.isEmpty)
          (targetFieldNamesOf req.targetFields) ms)) tf htf hno
    have hfix : postProcessEntry (!req.targetFields.isEmpty)
        (targetFieldNamesOf req.targetFields) (missingFieldEntry tf.field_name) =
        missingFieldEntry tf.field_name :=
      postProcessEntry_of_required _ _ _ rfl
    rw [← hfix]
    exact List.mem_map_of_mem _ hmem

theorem C1_amended_witness :
    missingFieldEntry "T" ∈ [unmappedOptionalEntry "A", missingFieldEntry "T"] :=
  (C1_amended [] ⟨["A"], [⟨"T"⟩], none⟩ [unmappedOptionalEntry "A", missingFieldEntry "T"]
    (by decide) (by with_unfolding_all rfl)).2.2.2 ⟨"T"⟩ (List.mem_singleton.mpr rfl)
    (by
      have hcalc : ensureAllSourceFields ["A"]
          (validateMappings ["A"] (!([⟨"T"⟩] : List TargetField).isEmpty)
            (targetFieldNamesOf [⟨"T"⟩]) []) = [unmappedOptionalEntry "A"] := by
        with_unfolding_all rfl
      intro r hr
      rw [hcalc] at hr
      have hre := List.mem_singleton.mp hr
      subst hre
      decide)

/-! ## Transposed-template normalizer

Embedding of `parseTransposedExcelTemplate` and the transposed-layout
dispatch of `parseExcelTemplate` (`FileUpload.tsx`).  A parsed sheet row is an
association list from column key to cell text (the scenario's cells are all
strings, so the `typeof value === 'string'` guard is identically true in the
embedding). -/

/-- JavaScript `row[key]` on an association-list row. -/
def rowLookup (row : List (String × String)) (key : String) : Option String :=
  (row.find? (fun kv => kv.1 == key)).map (fun kv => kv.2)

/-- JavaScript `obj[k] = v`: overwrite an existing key in place, else append
(insertion order preserved, as for JS object string keys). -/
def assocSet (l : List (String × String)) (k v : String) : List (String × String) :=
  if l.any (fun kv => kv.1 == k) then
    l.map (fun kv => if kv.1 == k then (k, v) else kv)
  else l ++ [(k, v)]

/-- The value extraction over the `"Important Initial Data"` column
(lines 103-109): kept when truthy and non-blank after trimming, trimmed. -/
def extractImportantColumn (data : List (List (String × String))) : List String :=
  data.filterMap (fun row =>
    match rowLookup row "Important Initial Data" with
    | some v => if v = "" then none else if strTrim v = "" then none else some (strTrim v)
    | none => none)

/-- The field-name heuristic of the description loop (lines 125-127). -/
def fieldNameKeywordsA : List String :=
  ["Number", "GTIN", "Product", "Weight", "Description", "Portal", "Price",
   "Category", "Brand"]

/-- The extended field-name heuristic of the data-row loop (lines 164-168). -/
def fieldNameKeywordsB : List String :=
  ["Number", "GTIN", "Product", "Weight", "Description", "Portal", "Price",
   "Category", "Brand", "Name", "SKU", "EAN", "Barcode", "Manufacturer", "Producer"]

/-- A token counts as a field name for the description loop when it contains
one of the keywords (case-sensitive `includes`). -/
def isFieldNameA (v : String) : Bool :=
  fieldNameKeywordsA.any (fun k => strContains v k)

/-- A token counts as a field name for the data-row loop when it contains one
of the extended keywords. -/
def isFieldNameB (v : String) : Bool :=
  fieldNameKeywordsB.any (fun k => strContains v k)

/-- The first loop of `parseTransposedExcelTemplate` (lines 121-149): walks
the token list pairing a field-name token with the following token (skipped),
switches into the description section at a token containing "beschreibung"
(case-insensitively), and in that section assigns each non-field-name token
as the description of the current field. -/
def descLoop : List String → String → Bool → List (String × String) → List (String × String)
  | [], _, _, descs => descs
  | v :: rest, cur, inDesc, descs =>
    if strContains (strToLower v) "beschreibung" then descLoop rest cur true descs
    else if isFieldNameA v && !inDesc then
      (match rest with
       | [] => descs
       | _ :: rest2 => descLoop rest2 v inDesc descs)
    else if inDesc && !(cur == "") then descLoop rest cur inDesc (assocSet descs cur v)
    else descLoop rest cur inDesc descs

/-- The second loop of `parseTransposedExcelTemplate` (lines 155-187): builds
the single data row by pairing each field-name token with the next token when
that token is not itself a field name nor the description sentinel, stopping
at the sentinel. -/
def rowLoop : List String → List (String × String) → List (String × String)
  | [], row => row
  | v :: rest, row =>
    if strContains (strToLower v) "beschreibung" then row
    else if isFieldNameB v then
      (match rest with
       | [] => row
       | nv :: rest2 =>
         if !isFieldNameB nv && !strContains (strToLower nv) "beschreibung" then
           rowLoop rest2 (assocSet row v nv)
         else rowLoop (nv :: rest2) row)
    else rowLoop rest row

/-- Embeds `parseTransposedExcelTemplate(data)`: returns the processed data
rows and the field-description map. -/
def parseTransposedExcelTemplate (data : List (List (String × String))) :
    List (List (String × String)) × List (String × String) :=
  let pairs := extractImportantColumn data
  let fieldDescriptions := descLoop pairs "" false []
  let dataRow := rowLoop pairs []
  (if dataRow.isEmpty then [] else [dataRow], fieldDescriptions)

/-- The transposed-layout dispatch condition of `parseExcelTemplate`
(lines 213-215): some row has a key containing "Important Initial Data". -/
def isTransposedSheet (data : List (List (String × String))) : Bool :=
  data.any (fun row => row.any (fun kv => strContains kv.1 "Important Initial Data"))

/-- C8: on the transposed sheet of the scenario, the dispatch recognizes the
layout and the normalizer yields exactly one record pairing
`Article Number/SKU` with `WETA860104342`, and the field-description map
pairing `Article Number/SKU` with `SKU description text` (the token after
the `Beschreibung` sentinel). -/
theorem C8_transposed_scenario :
    isTransposedSheet
      [[("Important Initial Data", "Article Number/SKU")],
       [("Important Initial Data", "WETA860104342")],
       [("Important Initial Data", "Beschreibung")],
       [("Important Initial Data", "SKU description text")]] = true ∧
    parseTransposedExcelTemplate
      [[("Important Initial Data", "Article Number/SKU")],
       [("Important Initial Data", "WETA860104342")],
       [("Important Initial Data", "Beschreibung")],
       [("Important Initial Data", "SKU description text")]] =
      ([[("Article Number/SKU", "WETA860104342")]],
       [("Article Number/SKU", "SKU description text")]) := by
  exact ⟨by decide, by decide⟩

/-! ## JSON values and parsing

The response-repair pipeline of `performAIMapping` (lines 154-290) operates
on text and hands the final text to `JSON.parse`.  To state what "the same
parse result" means we embed a JSON value type and a standard
recursive-descent parser (strings with the usual escapes, integer and decimal
numbers without exponents — the fragment exercised by the repository's
responses). -/

inductive Json where
  | null : Json
  | bool (b : Bool) : Json
  | num (q : Rat) : Json
  | str (s : String) : Json
  | arr (elems : List Json) : Json
  | obj (members : List (String × Json)) : Json
deriving Repr

/-- JSON insignificant whitespace (also the ASCII core of JavaScript `\s`,
which the source's regexes use). -/
def jsWs (c : Char) : Bool :=
  c = ' ' ∨ c = '\t' ∨ c = '\n' ∨ c = '\r'

/-- Skip insignificant whitespace. -/
def skipWs : List Char → List Char
  | [] => []
  | c :: rest => if jsWs c then skipWs rest else c :: rest

/-- One hexadecimal digit. -/
def hexDigit (c : Char) : Option Nat :=
  if '0' ≤ c ∧ c ≤ '9' then some (c.toNat - 48)
  else if 'a' ≤ c ∧ c ≤ 'f' then some (c.toNat - 87)
  else if 'A' ≤ c ∧ c ≤ 'F' then some (c.toNat - 55)
  else none

/-- Parse the remainder of a JSON string literal (after the opening quote):
returns the decoded characters and the text after the closing quote. -/
def parseStrChars : Nat → List Char → Option (List Char × List Char)
  | 0, _ => none
  | Nat.succ _, [] => none
  | Nat.succ fuel, c :: rest =>
    if c = '"' then some ([], rest)
    else if c = '\\' then
      match rest with
      | [] => none
      | e :: rest2 =>
        let decoded : Option (Char × List Char) :=
          if e = '"' then some ('"', rest2)
          else if e = '\\' then some ('\\', rest2)
          else if e = '/' then some ('/', rest2)
          else if e = 'b' then some ('\x08', rest2)
          else if e = 'f' then some ('\x0c', rest2)
          else if e = 'n' then some ('\n', rest2)
          else if e = 'r' then some ('\r', rest2)
          else if e = 't' then some ('\t', rest2)
          else if e = 'u' then
            match rest2 with
            | h1 :: h2 :: h3 :: h4 :: rest3 =>
              match hexDigit h1, hexDigit h2, hexDigit h3, hexDigit h4 with
              | some a, some b, some c3, some d =>
                some (Char.ofNat (((a * 16 + b) * 16 + c3) * 16 + d), rest3)
              | _, _, _, _ => none
            | _ => none
          else none
        match decoded with
        | some (ch, rem) =>
          match parseStrChars fuel rem with
          | some (chars, rem2) => some (ch :: chars, rem2)
          | none => none
        | none => none
    else
      match parseStrChars fuel rest with
      | some (chars, rem2) => some (c :: chars, rem2)
      | none => none

/-- Digits to a natural number. -/
def digitsVal (ds : List Char) : Nat :=
  ds.foldl (fun acc c => acc * 10 + (c.toNat - 48)) 0

/-- Parse a JSON number (optional sign, digits, optional fractional part). -/
def parseNumber (cs : List Char) : Option (Rat × List Char) :=
  let signed := match cs with
    | '-' :: rest => (true, rest)
    | _ => (false, cs)
  let ds := signed.2.takeWhile Char.isDigit
  let cs2 := signed.2.drop ds.length
  if ds.isEmpty then none
  else
    match cs2 with
    | '.' :: cs3 =>
      let fs := cs3.takeWhile Char.isDigit
      let cs4 := cs3.drop fs.length
      if fs.isEmpty then none
      else
        let q : Rat := (digitsVal ds : Rat) + (digitsVal fs : Rat) / ((10 : Rat) ^ fs.length)
        some (if signed.1 then -q else q, cs4)
    | _ => some (if signed.1 then -(digitsVal ds : Rat) else (digitsVal ds : Rat), cs2)

mutual

/-- Parse one JSON value (fuel-indexed recursive descent). -/
def parseVal : Nat → List Char → Option (Json × List Char)
  | 0, _ => none
  | Nat.succ fuel, cs =>
    match skipWs cs with
    | [] => none
    | '\x7b' :: rest => parseObjBody fuel rest
    | '[' :: rest => parseArrBody fuel rest
    | '"' :: rest =>
      match parseStrChars (rest.length + 1) rest with
      | some (chars, rem) => some (Json.str ⟨chars⟩, rem)
      | none => none
    | 't' :: rest =>
      if "rue".toList.isPrefixOf rest then some (Json.bool true, rest.drop 3) else none
    | 'f' :: rest =>
      if "alse".toList.isPrefixOf rest then some (Json.bool false, rest.drop 4) else none
    | 'n' :: rest =>
      if "ull".toList.isPrefixOf rest then some (Json.null, rest.drop 3) else none
    | c :: rest =>
      if c = '-' ∨ c.isDigit then
        match parseNumber (c :: rest) with
        | some (q, rem) => some (Json.num q, rem)
        | none => none
      else none

/-- Parse an object body after the opening brace. -/
def parseObjBody : Nat → List Char → Option (Json × List Char)
  | 0, _ => none
  | Nat.succ fuel, cs =>
    match skipWs cs with
    | '\x7d' :: rest => some (Json.obj [], rest)
    | _ => parseMembers fuel cs []

/-- Parse the members of a non-empty object body. -/
def parseMembers : Nat → List Char → List (String × Json) → Option (Json × List Char)
  | 0, _, _ => none
  | Nat.succ fuel, cs, acc =>
    match skipWs cs with
    | '"' :: rest =>
      match parseStrChars (rest.length + 1) rest with
      | some (key, rem) =>
        match skipWs rem with
        | ':' :: rem2 =>
          match parseVal fuel rem2 with
          | some (v, rem3) =>
            match skipWs rem3 with
            | ',' :: rem4 => parseMembers fuel rem4 (acc ++ [(⟨key⟩, v)])
            | '\x7d' :: rem4 => some (Json.obj (acc ++ [(⟨key⟩, v)]), rem4)
            | _ => none
          | none => none
        | _ => none
      | none => none
    | _ => none

/-- Parse an array body after the opening bracket. -/
def parseArrBody : Nat → List Char → Option (Json × List Char)
  | 0, _ => none
  | Nat.succ fuel, cs =>
    match skipWs cs with
    | ']' :: rest => some (Json.arr [], rest)
    | _ => parseElems fuel cs []

/-- Parse the elements of a non-empty array body. -/
def parseElems : Nat → List Char → List Json → Option (Json × List Char)
  | 0, _, _ => none
  | Nat.succ fuel, cs, acc =>
    match parseVal fuel cs with
    | some (v, rem) =>
      match skipWs rem with
      | ',' :: rem2 => parseElems fuel rem2 (acc ++ [v])
      | ']' :: rem2 => some (Json.arr (acc ++ [v]), rem2)
      | _ => none
    | none => none

end

/-- Parse a complete JSON text: one value surrounded by whitespace only
(`JSON.parse` semantics on the embedded fragment). -/
def parseJson (s : String) : Option Json :=
  match parseVal (2 * s.toList.length + 2) s.toList with
  | some (v, rem) => if (skipWs rem).isEmpty then some v else none
  | none => none

/-- The length of the array under an object's `"mappings"` key, when the
value has that shape — used to compare parse results structurally. -/
def jsonMappingsLength : Json → Option Nat
  | Json.obj members =>
    match members.find? (fun kv => kv.1 == "mappings") with
    | some (_, Json.arr l) => some l.length
    | _ => none
  | _ => none

/-! ## Response repair pipeline

Embedding of the text processing around `JSON.parse` in `performAIMapping`
(lines 154-290): markdown code-fence extraction, brace slicing, structural
repair, and the catch-block recovery of the bare `mappings` array. -/

/-- JavaScript `startsWith` on character lists. -/
def strStartsWithList (l pat : List Char) : Bool :=
  pat.isPrefixOf l

/-- JavaScript `endsWith` on character lists. -/
def strEndsWithList (l pat : List Char) : Bool :=
  pat.reverse.isPrefixOf l.reverse

/-- Index of the first case-insensitive occurrence of `pat` (the `/i` flag of
the fence regexes). -/
def firstIdxCI (l pat : List Char) : Option Nat :=
  firstIdx (l.map Char.toLower) (pat.map Char.toLower)

/-- Capture of `/`+ "```json" + `\s*([\s\S]*?)\s*` + "```" + `/i` (line 165),
already trimmed: between the first (case-insensitive) opening fence and the
next closing fence. -/
def extractJsonFence (l : List Char) : Option (List Char) :=
  match firstIdxCI l "```json".toList with
  | none => none
  | some i =>
    let after := l.drop (i + "```json".toList.length)
    match firstIdx after "```".toList with
    | none => none
    | some j => some (strTrimList (after.take j))

/-- Capture of the incomplete-fence fallback (line 171): everything after the
first (case-insensitive) opening fence, trimmed. -/
def extractJsonFenceOpen (l : List Char) : Option (List Char) :=
  match firstIdxCI l "```json".toList with
  | none => none
  | some i => some (strTrimList (l.drop (i + "```json".toList.length)))

/-- The incomplete branch of the "```json" case (lines 170-175): an empty
capture is falsy, so the text stays unchanged. -/
def jsonFenceOpenBranch (l : List Char) : List Char :=
  match extractJsonFenceOpen l with
  | some cap => if cap.isEmpty then l else cap
  | none => l

/-- The "```json" fence case (lines 163-176): use the complete-fence capture
when it matched with truthy content, else the incomplete fallback. -/
def jsonFenceBranch (l : List Char) : List Char :=
  match extractJsonFence l with
  | some cap => if cap.isEmpty then jsonFenceOpenBranch l else cap
  | none => jsonFenceOpenBranch l

/-- Capture of `/`+ "```" + `\s*([\s\S]*?)\s*` + "```" + `/` (line 179),
trimmed. -/
def extractFence (l : List Char) : Option (List Char) :=
  match firstIdx l "```".toList with
  | none => none
  | some i =>
    let after := l.drop (i + "```".toList.length)
    match firstIdx after "```".toList with
    | none => none
    | some j => some (strTrimList (after.take j))

/-- Capture of the plain incomplete-fence fallback (line 185), trimmed. -/
def extractFenceOpen (l : List Char) : Option (List Char) :=
  match firstIdx l "```".toList with
  | none => none
  | some i => some (strTrimList (l.drop (i + "```".toList.length)))

/-- The incomplete branch of the plain "```" case (lines 184-189). -/
def plainFenceOpenBranch (l : List Char) : List Char :=
  match extractFenceOpen l with
  | some cap => if cap.isEmpty then l else cap
  | none => l

/-- The plain "```" fence case (lines 177-191). -/
def plainFenceBranch (l : List Char) : List Char :=
  match extractFence l with
  | some cap => if cap.isEmpty then plainFenceOpenBranch l else cap
  | none => plainFenceOpenBranch l

/-- The brace-slicing step (lines 194-202): when the text is truthy, does not
start with an opening brace but contains one, slice from the first opening
brace to the last closing brace (only when the latter comes strictly
after). -/
def braceSlice (l : List Char) : List Char :=
  if !l.isEmpty && !strStartsWithList l ['\x7b'] && strContainsList l ['\x7b'] then
    match firstIdxCh l '\x7b', lastIdxCh l '\x7d' with
    | some si, some ei => if si < ei then (l.drop si).take (ei - si + 1) else l
    | _, _ => l
  else l

/-- A match of `/\x7b\s*"sourceField":[^\x7d]+\x7d/` at the head of the text
(the complete-mapping pattern of line 236): returns the matched length. -/
def tryMatchMapping (cs : List Char) : Option Nat :=
  match cs with
  | '\x7b' :: rest =>
    let ws := rest.takeWhile jsWs
    let rest1 := rest.drop ws.length
    let pat := "\"sourceField\":".toList
    if pat.isPrefixOf rest1 then
      let rest2 := rest1.drop pat.length
      let body := rest2.takeWhile (fun c => ¬ c = '\x7d')
      if body.isEmpty then none
      else
        match rest2.drop body.length with
        | '\x7d' :: _ => some (1 + ws.length + pat.length + body.length + 1)
        | _ => none
    else none
  | _ => none

/-- End position (exclusive) of the last complete-mapping match under the
global scan of line 237 (matches are non-overlapping, scanning left to
right). -/
def lastMappingEnd : Nat → List Char → Nat → Option Nat → Option Nat
  | 0, _, _, best => best
  | Nat.succ _, [], _, best => best
  | Nat.succ fuel, c :: rest, pos, best =>
    match tryMatchMapping (c :: rest) with
    | some len =>
      lastMappingEnd fuel ((c :: rest).drop len) (pos + len) (some (pos + len))
    | none => lastMappingEnd fuel rest (pos + 1) best

/-- JavaScript `replace(/,\s*$/, '')` (line 259): strip one trailing comma
together with the whitespace after it. -/
def stripTrailingComma (l : List Char) : List Char :=
  let rev := l.reverse.dropWhile jsWs
  match rev with
  | ',' :: r2 => r2.reverse
  | _ => l

/-- The structural repair step (lines 213-264) applied to the extracted text:
repair is needed when the trimmed text does not end with a closing brace,
ends with a dangling comma after a brace, or lacks the `"mappings"` key;
strategy 1 strips the trailing comma and closes the structure, strategy 2
truncates after the last complete mapping (keeping the text unchanged when no
complete mapping exists), strategy 3 substitutes an empty-mappings object
(its other branch is unreachable because strategy 3 only runs when
`"mappings":` is absent). -/
def repairJson (l : List Char) : List Char :=
  if !strEndsWithList (strTrimList l) ['\x7d'] || strEndsWithList (strTrimList l) ['\x7d', ','] ||
      !strContainsList (strTrimList l) "\"mappings\"".toList then
    if strEndsWithList (strTrimList l) ['\x7d', ','] then
      (strTrimList l).take ((strTrimList l).length - 1) ++ "\n  ]\n\x7d".toList
    else if strContainsList l "\"mappings\":".toList then
      match lastMappingEnd (l.length + 1) l 0 none with
      | some endIdx => l.take endIdx ++ "\n  ]\n\x7d".toList
      | none => l
    else if !strContainsList l "\"mappings\":".toList then
      "\x7b\"mappings\":[]\x7d".toList
    else stripTrailingComma l ++ "\n  ]\n\x7d".toList
  else l

/-- The extraction phase of the pipeline (lines 156-202): strip a markdown
fence (the "```json" case first, else the plain "```" case), then slice to
brace boundaries. -/
def extractionPhase (l0 : List Char) : List Char :=
  braceSlice
    (if strContainsList l0 "```json".toList then jsonFenceBranch l0
     else if strContainsList l0 "```".toList then plainFenceBranch l0
     else l0)

/-- The extraction phase followed by the empty-text guard (line 205) and the
structural repair. -/
def extractAndRepair (responseText : String) : Except String (List Char) :=
  if (strTrimList (extractionPhase (strTrimList responseText.toList))).isEmpty then
    Except.error "No valid JSON found in Gemini response"
  else Except.ok (repairJson (extractionPhase (strTrimList responseText.toList)))

/-- A match of `/"mappings"\s*:\s*\[(.*?)\]/` anchored at the head of the
text: the lazy capture runs to the first closing bracket and `.` does not
cross line terminators. -/
def tryMappingsAt (cs : List Char) : Option (List Char) :=
  let pat := "\"mappings\"".toList
  if pat.isPrefixOf cs then
    let after1 := (cs.drop pat.length).dropWhile jsWs
    match after1 with
    | ':' :: after2 =>
      match after2.dropWhile jsWs with
      | '[' :: after4 =>
        let cap := after4.takeWhile (fun c => ¬ (c = ']' ∨ c = '\n' ∨ c = '\r'))
        match after4.drop cap.length with
        | ']' :: _ => some cap
        | _ => none
      | _ => none
    | _ => none
  else none

/-- First match of the catch-block regex (line 276) over the whole text. -/
def mappingsArrayCapture : List Char → Option (List Char)
  | [] => none
  | c :: rest =>
    match tryMappingsAt (c :: rest) with
    | some cap => some cap
    | none => mappingsArrayCapture rest

/-- The catch-block recovery (lines 268-289): extract the bare mappings array
from the original response text and parse it wrapped in a minimal object;
a hard parse failure otherwise. -/
def catchMappings (responseText : String) : Except String Json :=
  match mappingsArrayCapture responseText.toList with
  | some inner =>
    match parseJson ⟨"\x7b\"mappings\":[".toList ++ inner ++ "]\x7d".toList⟩ with
    | some v => Except.ok v
    | none => Except.error "Invalid JSON response from Gemini API"
  | none => Except.error "Invalid JSON response from Gemini API"

/-- Embeds the whole parse-with-repair of `performAIMapping`
(lines 154-290): extract and repair, parse, and on any failure fall back to
the catch-block recovery. -/
def processResponse (responseText : String) : Except String Json :=
  match extractAndRepair responseText with
  | Except.ok repaired =>
    match parseJson ⟨repaired⟩ with
    | some v => Except.ok v
    | none => catchMappings responseText
  | Except.error _ => catchMappings responseText

/-! ## Pipeline identity lemmas -/

theorem strContainsList_json_fence (l : List Char)
    (h : strContainsList l "```".toList = false) :
    strContainsList l "```json".toList = false := by
  by_contra hc
  rw [Bool.not_eq_false] at hc
  unfold strContainsList at hc h
  obtain ⟨t, ht, hp2⟩ := List.any_eq_true.mp hc
  have h1 : "```json".toList <+: t := List.isPrefixOf_iff_prefix.mp hp2
  have h2 : "```".toList <+: "```json".toList := ⟨"json".toList, by decide⟩
  have h3 : "```".toList.isPrefixOf t = true :=
    List.isPrefixOf_iff_prefix.mpr (h2.trans h1)
  rw [List.any_eq_true.mpr ⟨t, ht, h3⟩] at h
  exact absurd h (by simp)

theorem endsWith_brace_not_comma (l : List Char)
    (h : strEndsWithList l ['\x7d'] = true) :
    strEndsWithList l ['\x7d', ','] = false := by
  unfold strEndsWithList at h ⊢
  obtain ⟨u, hu⟩ := List.isPrefixOf_iff_prefix.mp h
  by_contra hc
  rw [Bool.not_eq_false] at hc
  obtain ⟨w, hw⟩ := List.isPrefixOf_iff_prefix.mp hc
  rw [← hu] at hw
  injection hw with h1 _
  exact absurd h1 (by decide)

theorem strTrimList_eq_self (l : List Char)
    (h1 : strStartsWithList l ['\x7b'] = true)
    (h2 : strEndsWithList l ['\x7d'] = true) :
    strTrimList l = l := by
  unfold strStartsWithList at h1
  unfold strEndsWithList at h2
  obtain ⟨u, hu⟩ := List.isPrefixOf_iff_prefix.mp h1
  obtain ⟨w, hw⟩ := List.isPrefixOf_iff_prefix.mp h2
  unfold strTrimList trimLeftList
  have hleft : List.dropWhile Char.isWhitespace l = l := by
    rw [← hu]
    show List.dropWhile Char.isWhitespace ('\x7b' :: u) = '\x7b' :: u
    rw [List.dropWhile_cons, if_neg (by decide)]
  rw [hleft]
  have hright : List.dropWhile Char.isWhitespace l.reverse = l.reverse := by
    rw [← hw]
    show List.dropWhile Char.isWhitespace ('\x7d' :: w) = '\x7d' :: w
    rw [List.dropWhile_cons, if_neg (by decide)]
  rw [hright, List.reverse_reverse]

/-- C7 amended: the repair pipeline is the identity on already-well-formed
input PROVIDED the text contains no markdown backtick fence: for a response
whose trimmed text parses as JSON, starts with the object-opening brace, ends
with the object-closing brace, and contains the literal quoted `mappings`
key, the pipeline's result parses to exactly the same value.  The no-fence
proviso is forced by the counterexample: a fence inside a string value of
otherwise valid JSON is mangled by the extraction step. -/
theorem C7_amended (s : String) (v : Json)
    (hp : parseJson (strTrim s) = some v)
    (hstart : strStartsWithList (strTrimList s.toList) ['\x7b'] = true)
    (hend : strEndsWithList (strTrimList s.toList) ['\x7d'] = true)
    (hmap : strContainsList (strTrimList s.toList) "\"mappings\"".toList = true)
    (hfence : strContainsList (strTrimList s.toList) "```".toList = false) :
    processResponse s = Except.ok v := by
  have hcj := strContainsList_json_fence (strTrimList s.toList) hfence
  have hcomma := endsWith_brace_not_comma (strTrimList s.toList) hend
  have htrim := strTrimList_eq_self (strTrimList s.toList) hstart hend
  have hne : (strTrimList s.toList).isEmpty = false := by
    cases hcase : strTrimList s.toList with
    | nil => rw [hcase] at hstart; exact absurd hstart (by decide)
    | cons c rest => rfl
  have hbs : braceSlice (strTrimList s.toList) = strTrimList s.toList := by
    unfold braceSlice
    rw [hstart]
    simp
  have hex : extractionPhase (strTrimList s.toList) = strTrimList s.toList := by
    unfold extractionPhase
    rw [hcj, hfence]
    simp only [Bool.false_eq_true, if_false]
    exact hbs
  have hrj : repairJson (strTrimList s.toList) = strTrimList s.toList := by
    unfold repairJson
    rw [htrim, hend, hcomma, hmap]
    simp
  have hear : extractAndRepair s = Except.ok (strTrimList s.toList) := by
    unfold extractAndRepair
    rw [hex, htrim, hne]
    simp only [Bool.false_eq_true, if_false]
    rw [hrj]
  unfold processResponse
  rw [hear]
  have hstr : (⟨strTrimList s.toList⟩ : String) = strTrim s := rfl
  simp only [hstr, hp]

/-- C7 counterexample: a syntactically valid JSON object carrying a
`mappings` key with one entry but whose `note` string value contains a
markdown fence is corrupted by the pipeline: the fence extraction keeps only
the text after "```json", and the structural repair then substitutes the
empty-mappings object, so the pipeline's parse result (zero mappings) is not
structurally identical to the direct parse (one mapping). -/
theorem C7_counterexample :
    parseJson "\x7b\"mappings\":[\x7b\"sourceField\":\"A\",\"confidence\":1\x7d],\"note\":\"```json\"\x7d" =
      some (Json.obj [("mappings", Json.arr [Json.obj [("sourceField", Json.str "A"),
        ("confidence", Json.num 1)]]), ("note", Json.str "```json")]) ∧
    processResponse "\x7b\"mappings\":[\x7b\"sourceField\":\"A\",\"confidence\":1\x7d],\"note\":\"```json\"\x7d" =
      Except.ok (Json.obj [("mappings", Json.arr [])]) ∧
    jsonMappingsLength (Json.obj [("mappings", Json.arr [Json.obj [("sourceField", Json.str "A"),
        ("confidence", Json.num 1)]]), ("note", Json.str "```json")]) = some 1 ∧
    jsonMappingsLength (Json.obj [("mappings", Json.arr [])]) = some 0 := by
  exact ⟨by with_unfolding_all rfl, by with_unfolding_all rfl,
    by with_unfolding_all rfl, by with_unfolding_all rfl⟩

theorem C7_amended_witness :
    processResponse "\x7b\"mappings\":[1]\x7d" =
      Except.ok (Json.obj [("mappings", Json.arr [Json.num 1])]) :=
  C7_amended "\x7b\"mappings\":[1]\x7d" (Json.obj [("mappings", Json.arr [Json.num 1])])
    (by with_unfolding_all rfl) (by decide) (by decide) (by decide) (by decide)
